import Mathlib

/-!
# Picture-Organizer: a shallow embedding of `reorganizer.go`

Go strings are modelled as lists of characters.  Every separator and pattern
the program uses is ASCII, so byte-wise and character-wise splitting and
searching agree.  The progress bar (`Bar`) only prints to the console; it has
no influence on control flow or on the filesystem and is left out.
-/

namespace PictureOrganizer

/-- A Go `string`. -/
abbrev Str := List Char

/-! ## The parts of package `strings` and `fmt` the program uses -/

/-- Model of `strings.HasPrefix s p`. -/
def startsWith : Str → Str → Bool
  | _, [] => true
  | [], _ :: _ => false
  | c :: s, d :: p => decide (c = d) && startsWith s p

/-- Model of `strings.Contains s sub`: some suffix of `s` starts with `sub`. -/
def Contains : Str → Str → Bool
  | [], sub => startsWith [] sub
  | c :: s, sub => startsWith (c :: s) sub || Contains s sub

/-- Model of `strings.Split s "/"`: the pieces of `s` between slashes.  The
result is never empty; the empty string gives one empty piece. -/
def Split : Str → List Str
  | [] => [[]]
  | c :: s =>
    if c = '/' then [] :: Split s
    else
      match Split s with
      | [] => [[c]]
      | h :: t => (c :: h) :: t

/-- Model of `strings.Join xs sep`. -/
def Join : List Str → Str → Str
  | [], _ => []
  | [a], _ => a
  | a :: b :: t, sep => a ++ sep ++ Join (b :: t) sep

/-- Model of the verb `%d` of `fmt.Sprintf` on an `int`: decimal digits, a
leading minus sign for negative numbers, no padding. -/
def fmtInt : Int → Str
  | Int.ofNat n => Nat.toDigits 10 n
  | Int.negSucc n => '-' :: Nat.toDigits 10 (n + 1)

/-- Model of a slice expression `xs[:n]`; `none` is the run-time panic
"slice bounds out of range". -/
def sliceTo (xs : List Str) (n : Nat) : Option (List Str) :=
  if n ≤ xs.length then some (xs.take n) else none

/-! ## The string constants of the program -/

/-- The path separator "/" of the format strings. -/
def slash : Str := "/".toList

/-- The folder name "unknown_dates". -/
def unknownDates : Str := "unknown_dates".toList

/-- The folder name "error_files". -/
def errorFiles : Str := "error_files".toList

/-- The folder name "others". -/
def othersDir : Str := "others".toList

/-- The pattern ".JPG". -/
def dotJPG : Str := ".JPG".toList

/-- The pattern ".jpg". -/
def dotjpg : Str := ".jpg".toList

/-! ## Directory listing and `parseFiles` -/

/-- The two fields of `fs.FileInfo` the program reads. -/
structure FileInfo where
  name : Str
  isDir : Bool
  deriving DecidableEq, Repr

/-- The test of line 82: the name contains ".JPG" or ".jpg". -/
def isJpg (file : Str) : Bool :=
  Contains file dotJPG || Contains file dotjpg

/-- One iteration of the loop of `parseFiles` (lines 76-87). -/
def parseStep (parent_path : Str) (output : List Str × List Str) (f : FileInfo) :
    List Str × List Str :=
  if f.isDir then output
  else
    let file := f.name
    let file_path := parent_path ++ slash ++ file
    if isJpg file then (output.1 ++ [file_path], output.2)
    else (output.1, output.2 ++ [file_path])

/-- Model of `parseFiles`: `output[0]` holds the image paths, `output[1]` the
paths of all other files. -/
def parseFiles (parent_path : Str) (files : List FileInfo) : List Str × List Str :=
  files.foldl (parseStep parent_path) ([], [])

/-- The classification `parseFiles` gives a file name. -/
inductive Classification
  | Image
  | Generic
  deriving DecidableEq, Repr

/-- Which of the two lists of `parseFiles` a non-directory name goes to. -/
def classify (file : Str) : Classification :=
  if isJpg file then Classification.Image else Classification.Generic

/-! ## Pictures and dates -/

/-- What the EXIF library finds in a file: `exif.Decode` fails
(`decodeError`), or it succeeds and `x.DateTime()` fails (`noDateTime`), or
both succeed and the time stamp has the given year, month and day. -/
inductive Exif
  | decodeError
  | noDateTime
  | dateTime (year month day : Int)
  deriving DecidableEq, Repr

/-- Go `[3]int`: year, month, day. -/
abbrev Date := Int × Int × Int

/-- The struct `Picture`. -/
structure Picture where
  path : Str
  date : Date
  deriving DecidableEq, Repr

/-! ## The filesystem seen through `os.Stat`, `os.Mkdir`, `os.Rename`, `os.Open`

The model follows POSIX.  A path string is resolved to its list of non-empty
components (so repeated and trailing slashes are ignored); an absolute path
starts with the empty component, which stands for the root.  `.` and `..`
are ordinary names, there are no symbolic links, and the working directory
and the root always exist.  Two permissions are modelled: the right to
create or remove entries in a directory, and the right to read a file.  The
process can hold only a limited number of files open.  A file carries what
the EXIF decoder would find in it. -/

/-- The error numbers that matter. -/
inductive Errno
  | ENOENT
  | ENOTDIR
  | EEXIST
  | EACCES
  | EISDIR
  | EINVAL
  | ENOTEMPTY
  | EBUSY
  | EMFILE
  deriving DecidableEq, Repr

/-- What sits at a path. -/
inductive Node
  | dir
  | file (content : Exif)
  deriving DecidableEq, Repr

/-- A resolved path. -/
abbrev Path := List Str

/-- A filesystem state as the process meets it: the nodes, the directories in
which entries can be neither created nor removed (no write permission), the
files that cannot be opened for reading (no read permission), and the number
of files the process can hold open at the same time (its descriptor limit,
less the descriptors in use when the program starts). -/
structure FS where
  nodes : List (Path × Node)
  readOnly : List Path
  unreadable : List Path := []
  maxOpen : Nat := 1021
  deriving DecidableEq, Repr

/-- The outcome of a system call that returns a value. -/
inductive Sys (α : Type)
  | ok (a : α)
  | err (e : Errno)
  deriving DecidableEq, Repr

/-- Path resolution; the empty string names nothing. -/
def resolve (p : Str) : Option Path :=
  if p = [] then none
  else some ((if p.head? = some '/' then [[]] else []) ++ (Split p).filter (fun s => !s.isEmpty))

/-- First entry stored for a path. -/
def lookupNode : List (Path × Node) → Path → Option Node
  | [], _ => none
  | (p, k) :: t, q => if p = q then some k else lookupNode t q

/-- The node at a resolved path; the working directory `[]` and the root
`[[]]` are always directories. -/
def FS.look (fs : FS) (q : Path) : Option Node :=
  if q = [] ∨ q = [[]] then some Node.dir else lookupNode fs.nodes q

/-- Walk down the components `rest` starting from the node at `pre`. -/
def FS.walkFrom (fs : FS) : Path → Path → Sys Node
  | pre, [] =>
    match fs.look pre with
    | some n => Sys.ok n
    | none => Sys.err Errno.ENOENT
  | pre, s :: rest =>
    match fs.look pre with
    | some Node.dir => fs.walkFrom (pre ++ [s]) rest
    | some (Node.file _) => Sys.err Errno.ENOTDIR
    | none => Sys.err Errno.ENOENT

/-- Path lookup as the kernel does it, component by component. -/
def FS.walk (fs : FS) (q : Path) : Sys Node :=
  fs.walkFrom [] q

/-- Model of `os.Stat` (only the node kind is kept of the file info). -/
def FS.stat (fs : FS) (p : Str) : Sys Node :=
  match resolve p with
  | none => Sys.err Errno.ENOENT
  | some q => fs.walk q

/-- Model of `os.Open` when the process already holds `held` files open: a
free descriptor is needed, the path must lead to a node, and the node must be
readable. -/
def FS.openRead (fs : FS) (held : Nat) (p : Str) : Sys Node :=
  if fs.maxOpen ≤ held then Sys.err Errno.EMFILE
  else
    match fs.stat p with
    | Sys.err e => Sys.err e
    | Sys.ok n =>
      match resolve p with
      | none => Sys.err Errno.ENOENT
      | some q => if q ∈ fs.unreadable then Sys.err Errno.EACCES else Sys.ok n

/-- Model of `os.IsNotExist(err)` on the result of a call. -/
def isNotExist {α : Type} : Sys α → Bool
  | Sys.err Errno.ENOENT => true
  | _ => false

/-- Model of `os.Mkdir`: the parent must be a directory, the path itself
must be free and the parent writable. -/
def FS.mkdir (fs : FS) (p : Str) : Sys FS :=
  match resolve p with
  | none => Sys.err Errno.ENOENT
  | some q =>
    match fs.walk q.dropLast with
    | Sys.err e => Sys.err e
    | Sys.ok (Node.file _) => Sys.err Errno.ENOTDIR
    | Sys.ok Node.dir =>
      match fs.look q with
      | some _ => Sys.err Errno.EEXIST
      | none =>
        if q.dropLast ∈ fs.readOnly then Sys.err Errno.EACCES
        else Sys.ok { fs with nodes := (q, Node.dir) :: fs.nodes }

/-- Does the directory at `q` have an entry? -/
def FS.hasChild (fs : FS) (q : Path) : Bool :=
  fs.nodes.any (fun e => decide (e.1.dropLast = q ∧ e.1 ≠ q))

/-- Re-root every node at or below `qo` to `qn`; all other nodes stay. -/
def moveTree (qo qn : Path) (nodes : List (Path × Node)) : List (Path × Node) :=
  nodes.map (fun e => if qo <+: e.1 then (qn ++ e.1.drop qo.length, e.2) else e)

/-- Model of `os.Rename` (rename(2)).  A file replaces a file at the new
path; a directory moves with everything below it and may only replace an
empty directory. -/
def FS.rename (fs : FS) (old new : Str) : Sys FS :=
  match resolve old, resolve new with
  | some qo, some qn =>
    match fs.walk qo with
    | Sys.err e => Sys.err e
    | Sys.ok src =>
      match fs.walk qn.dropLast with
      | Sys.err e => Sys.err e
      | Sys.ok (Node.file _) => Sys.err Errno.ENOTDIR
      | Sys.ok Node.dir =>
        if qo = [[]] ∨ qn = [[]] then Sys.err Errno.EBUSY
        else if qo.dropLast ∈ fs.readOnly ∨ qn.dropLast ∈ fs.readOnly then Sys.err Errno.EACCES
        else if qo = qn then Sys.ok fs
        else
          match src, fs.look qn with
          | Node.file _, some Node.dir => Sys.err Errno.EISDIR
          | Node.file c, _ =>
            Sys.ok { fs with
              nodes := (qn, Node.file c) ::
                fs.nodes.filter (fun e => decide (e.1 ≠ qo ∧ e.1 ≠ qn)) }
          | Node.dir, some (Node.file _) => Sys.err Errno.ENOTDIR
          | Node.dir, tgt =>
            if qo <+: qn then Sys.err Errno.EINVAL
            else if tgt = some Node.dir ∧ fs.hasChild qn = true then Sys.err Errno.ENOTEMPTY
            else
              Sys.ok { fs with
                nodes := moveTree qo qn (fs.nodes.filter (fun e => decide (e.1 ≠ qn))) }
  | _, _ => Sys.err Errno.ENOENT

/-! ## The running program: filesystem plus the system calls made so far -/

/-- A system call the program made, with the error it returned (if any). -/
inductive Call
  | stat (p : Str)
  | mkdir (p : Str) (err : Option Errno)
  | rename (old new : Str) (err : Option Errno)
  | openFile (p : Str) (err : Option Errno)
  deriving DecidableEq, Repr

/-- The state of a run: the filesystem and the calls made, oldest first. -/
structure World where
  fs : FS
  trace : List Call
  deriving DecidableEq, Repr

/-- How a piece of the program ends: it returns, or `log.Fatal` stops the
process, or a run-time panic (index or slice bound out of range) stops it. -/
inductive Result (α : Type)
  | ok (a : α) (w : World)
  | fatal (w : World)
  | panic (w : World)
  deriving DecidableEq, Repr

/-- Sequencing: the rest of the program runs only when the first part returns. -/
def Result.bind {α β : Type} (r : Result α) (k : α → World → Result β) : Result β :=
  match r with
  | Result.ok a w => k a w
  | Result.fatal w => Result.fatal w
  | Result.panic w => Result.panic w

/-- The program calls `os.Stat`. -/
def World.stat (w : World) (p : Str) : Sys Node × World :=
  (w.fs.stat p, { w with trace := w.trace ++ [Call.stat p] })

/-- The program calls `os.Mkdir`; the first component is the error. -/
def World.mkdir (w : World) (p : Str) : Option Errno × World :=
  match w.fs.mkdir p with
  | Sys.ok fs1 => (none, { fs := fs1, trace := w.trace ++ [Call.mkdir p none] })
  | Sys.err e => (some e, { w with trace := w.trace ++ [Call.mkdir p (some e)] })

/-- The program calls `os.Rename`; the first component is the error. -/
def World.rename (w : World) (old new : Str) : Option Errno × World :=
  match w.fs.rename old new with
  | Sys.ok fs1 => (none, { fs := fs1, trace := w.trace ++ [Call.rename old new none] })
  | Sys.err e => (some e, { w with trace := w.trace ++ [Call.rename old new (some e)] })

/-- The files the program holds open: it never closes one (`getDate` has no
`Close`), so every successful `os.Open` so far counts. -/
def openCount : List Call → Nat
  | [] => 0
  | Call.openFile _ none :: t => openCount t + 1
  | _ :: t => openCount t

/-- The program calls `os.Open`; the file stays open for the rest of the run. -/
def World.openFile (w : World) (p : Str) : Sys Node × World :=
  match w.fs.openRead (openCount w.trace) p with
  | Sys.ok n => (Sys.ok n, { w with trace := w.trace ++ [Call.openFile p none] })
  | Sys.err e => (Sys.err e, { w with trace := w.trace ++ [Call.openFile p (some e)] })

/-! ## `getDate`, `setPictureDates`, `buildPath`, `move`, `organize` -/

/-- The triple `getDate` returns once the file is open (lines 99-109):
`[-1,-1,-1]` when decoding fails, `[0,0,0]` when there is no date field, and
the year, month and day of the time stamp otherwise.  A directory opens but
cannot be read, so decoding it fails. -/
def dateOf : Node → Date
  | Node.dir => (-1, -1, -1)
  | Node.file Exif.decodeError => (-1, -1, -1)
  | Node.file Exif.noDateTime => (0, 0, 0)
  | Node.file (Exif.dateTime y m d) => (y, m, d)

/-- Model of `getDate` (lines 93-110).  A failing `os.Open` is fatal; the
opened file is never closed. -/
def getDate (picture : Str) (w : World) : Result Date :=
  match w.openFile picture with
  | (Sys.err _, w1) => Result.fatal w1
  | (Sys.ok node, w1) => Result.ok (dateOf node) w1

/-- Model of `setPictureDates` (lines 114-123). -/
def setPictureDates : List Str → World → Result (List Picture)
  | [], w => Result.ok [] w
  | p :: ps, w =>
    (getDate p w).bind fun date w1 =>
      (setPictureDates ps w1).bind fun output w2 =>
        Result.ok ({ path := p, date := date } :: output) w2

/-- The check-then-create step that `buildPath` repeats (lines 129-133,
135-139, 143-147, 149-153, 155-159): `os.Stat`, and when the error is
"not exist", `os.Mkdir`, whose failure is fatal. -/
def ensureDir (dir : Str) (w : World) : Result Unit :=
  match w.stat dir with
  | (r, w1) =>
    if isNotExist r then
      match w1.mkdir dir with
      | (none, w2) => Result.ok () w2
      | (some _, w2) => Result.fatal w2
    else Result.ok () w1

/-- Model of `buildPath` (lines 127-161). -/
def buildPath (desired_path : Str) (w : World) : Result Unit :=
  if Contains desired_path unknownDates then ensureDir desired_path w
  else if Contains desired_path errorFiles then ensureDir desired_path w
  else
    let path := Split desired_path
    match sliceTo path 2 with
    | none => Result.panic w
    | some year =>
      (ensureDir (Join year slash) w).bind fun _ w1 =>
        match sliceTo path 3 with
        | none => Result.panic w1
        | some month =>
          (ensureDir (Join month slash) w1).bind fun _ w2 =>
            ensureDir (Join path slash) w2

/-- The directory `move` picks for a picture (`new_base_path`, lines
165-176); `none` is an index panic. -/
def moveDest (p : Picture) : Option Str :=
  match (Split p.path)[0]? with
  | none => none
  | some base =>
    let y := p.date.1
    let m := p.date.2.1
    let d := p.date.2.2
    if y = 0 then some (base ++ slash ++ unknownDates)
    else if y = -1 then some (base ++ slash ++ errorFiles)
    else some (base ++ slash ++ fmtInt y ++ slash ++ fmtInt m ++ slash ++ fmtInt d)

/-- The second argument `move` gives `os.Rename` (`new_filename`, line 184);
`none` is an index panic. -/
def moveTarget (p : Picture) : Option Str :=
  match moveDest p, (Split p.path)[1]? with
  | some new_base_path, some name => some (new_base_path ++ slash ++ name)
  | _, _ => none

/-- Lines 179-182 of `move`: `buildPath` runs only when `os.Stat` reports
the directory as missing. -/
def buildIfMissing (new_base_path : Str) (w : World) : Result Unit :=
  match w.stat new_base_path with
  | (r, w1) => if isNotExist r then buildPath new_base_path w1 else Result.ok () w1

/-- Model of `move` (lines 164-186).  The error of `os.Rename` is dropped. -/
def move (p : Picture) (w : World) : Result Unit :=
  match moveDest p with
  | none => Result.panic w
  | some new_base_path =>
    (buildIfMissing new_base_path w).bind fun _ w2 =>
      match (Split p.path)[1]? with
      | none => Result.panic w2
      | some name => Result.ok () (w2.rename p.path (new_base_path ++ slash ++ name)).2

/-- The first loop of `organize` (lines 200-205). -/
def movePics : List Picture → World → Result Unit
  | [], w => Result.ok () w
  | p :: ps, w => (move p w).bind fun _ w1 => movePics ps w1

/-- The second argument `organize` gives `os.Rename` for the file `f`
(lines 212-213); `none` is an index panic. -/
def othersTarget (base_path f : Str) : Option Str :=
  match (Split f)[1]? with
  | none => none
  | some iso_name => some (base_path ++ slash ++ othersDir ++ slash ++ iso_name)

/-- The second loop of `organize` (lines 210-218). -/
def moveOthers (base_path : Str) : List Str → World → Result Unit
  | [], w => Result.ok () w
  | f :: rest, w =>
    match othersTarget base_path f with
    | none => Result.panic w
    | some new_filename => moveOthers base_path rest (w.rename f new_filename).2

/-- Model of `organize` (lines 190-221).  `files[1][0]` panics on an empty
list; the error of `os.Mkdir` for the "others" folder is dropped. -/
def organize (files : List Str × List Str) (w : World) : Result Unit :=
  (setPictureDates files.1 w).bind fun pics w1 =>
    (movePics pics w1).bind fun _ w2 =>
      match files.2 with
      | [] => Result.panic w2
      | f0 :: _ =>
        match (Split f0)[0]? with
        | none => Result.panic w2
        | some base_path =>
          moveOthers base_path files.2 (w2.mkdir (base_path ++ slash ++ othersDir)).2

/-- The state in which a piece of the program ended. -/
def Result.world {α : Type} : Result α → World
  | Result.ok _ w => w
  | Result.fatal w => w
  | Result.panic w => w

/-- Did the piece of the program return? -/
def Result.isOk {α : Type} : Result α → Bool
  | Result.ok _ _ => true
  | _ => false

/-! ## Notions of the specification -/

/-- The extension of a file name as the specification uses the word: the
suffix that starts at the last dot, empty when the name has no dot. -/
def fileExt : Str → Str
  | [] => []
  | c :: s => if '.' ∈ s then fileExt s else if c = '.' then c :: s else []

/-- Lower-case form of a string (ASCII letters). -/
def lowerStr (s : Str) : Str :=
  s.map Char.toLower

/-- The classification the specification describes: Image exactly when the
extension, compared without regard to case, is ".jpg". -/
def classifyByExt (file : Str) : Classification :=
  if lowerStr (fileExt file) = ".jpg".toList then Classification.Image
  else Classification.Generic

/-- The characters `%d` can print. -/
def decChars : Str := "0123456789-".toList

/-- The characters of the part of a dated destination after the base. -/
def dirChars : Str := "0123456789-/".toList

/-- The directory (resolved) that `move` aims at for a picture directly
under the directory `R`. -/
def destPath (R : Str) (date : Date) : Path :=
  if date.1 = 0 then [R, unknownDates]
  else if date.1 = -1 then [R, errorFiles]
  else [R, fmtInt date.1, fmtInt date.2.1, fmtInt date.2.2]

/-- The directories that have to exist for that, outermost first. -/
def destDirs (R : Str) (date : Date) : List Path :=
  if date.1 = 0 then [[R, unknownDates]]
  else if date.1 = -1 then [[R, errorFiles]]
  else
    [[R, fmtInt date.1], [R, fmtInt date.1, fmtInt date.2.1],
      [R, fmtInt date.1, fmtInt date.2.1, fmtInt date.2.2]]

/-- The layout of the specification (section 6): where a file named `n`
with the given metadata belongs under the root `R`. -/
def placeOf (R n : Str) : Exif → Path
  | Exif.dateTime y m d =>
    if isJpg n then [R, fmtInt y, fmtInt m, fmtInt d, n] else [R, othersDir, n]
  | Exif.noDateTime => if isJpg n then [R, unknownDates, n] else [R, othersDir, n]
  | Exif.decodeError => if isJpg n then [R, errorFiles, n] else [R, othersDir, n]

/-- Is the path occupied by a file? -/
def FS.fileAt (fs : FS) (q : Path) : Bool :=
  match fs.look q with
  | some (Node.file _) => true
  | _ => false

/-- The `Picture` that `setPictureDates` makes of the file named `e.1` with
metadata `e.2` in the directory `R`. -/
def picOf (R : Str) (e : Str × Exif) : Picture :=
  { path := R ++ slash ++ e.1, date := dateOf (Node.file e.2) }

/-- The path (resolved) `move` renames that picture to. -/
def targetOf (R : Str) (e : Str × Exif) : Path :=
  destPath R (dateOf (Node.file e.2)) ++ [e.1]

/-- The directory levels `move` needs for that picture. -/
def levelsOf (R : Str) (e : Str × Exif) : List Path :=
  destDirs R (dateOf (Node.file e.2))

/-- The name of the folder directly under the base that `move` uses for a
date: "unknown_dates", "error_files" or the year in decimal. -/
def topName (date : Date) : Str :=
  if date.1 = 0 then unknownDates
  else if date.1 = -1 then errorFiles
  else fmtInt date.1

/-- The names of the folders a run creates directly under the input
directory: "others", and for every image of the listing the folder for its
date. -/
def folderNames (entries : List (Str × Exif)) : List Str :=
  othersDir ::
    (entries.filter (fun e => isJpg e.1)).map (fun e => topName (dateOf (Node.file e.2)))

/-- A known date in the sense of the specification never has the year 0 or
-1, which the program uses as sentinels. -/
def yearOk : Exif → Bool
  | Exif.dateTime y _ _ => decide (y ≠ 0) && decide (y ≠ -1)
  | _ => true

/-! ## Concrete filesystems used in the evaluations below -/

/-- Directory `a/b` with one dated image and one text file. -/
def fsNested : FS :=
  { nodes :=
      [(["a".toList], Node.dir), (["a".toList, "b".toList], Node.dir),
        (["a".toList, "b".toList, "c.jpg".toList], Node.file (Exif.dateTime 2020 1 15)),
        (["a".toList, "b".toList, "d.txt".toList], Node.file Exif.decodeError)],
    readOnly := [] }

/-- Directory `r` with two images and no other file. -/
def fsImagesOnly : FS :=
  { nodes :=
      [(["r".toList], Node.dir),
        (["r".toList, "a.JPG".toList], Node.file (Exif.dateTime 2020 1 15)),
        (["r".toList, "b.jpg".toList], Node.file Exif.decodeError)],
    readOnly := [] }

/-- An organized directory `r`: subfolders only. -/
def fsOrganized : FS :=
  { nodes :=
      [(["r".toList], Node.dir), (["r".toList, "2020".toList], Node.dir),
        (["r".toList, "others".toList], Node.dir),
        (["r".toList, "others".toList, "c.txt".toList], Node.file Exif.decodeError)],
    readOnly := [] }

/-- A directory whose name is `error_files`, holding one dated image and one
text file, and an empty directory whose name is `my_unknown_dates`. -/
def fsMarkerName : FS :=
  { nodes :=
      [(["error_files".toList], Node.dir),
        (["error_files".toList, "a.jpg".toList], Node.file (Exif.dateTime 2020 1 15)),
        (["error_files".toList, "c.txt".toList], Node.file Exif.decodeError),
        (["my_unknown_dates".toList], Node.dir)],
    readOnly := [] }

/-- Directory `r` without write permission, with an image and two text files. -/
def fsReadOnly : FS :=
  { nodes :=
      [(["r".toList], Node.dir),
        (["r".toList, "b.jpg".toList], Node.file Exif.decodeError),
        (["r".toList, "c.txt".toList], Node.file Exif.decodeError),
        (["r".toList, "d.txt".toList], Node.file Exif.decodeError)],
    readOnly := [["r".toList]] }

/-- An empty directory `r`. -/
def fsEmptyDir : FS :=
  { nodes := [(["r".toList], Node.dir)], readOnly := [] }

/-- Directory `r` holding the image `a.jpg` dated 2021-05-03 and a regular
file named `2021`. -/
def fsYearTaken : FS :=
  { nodes :=
      [(["r".toList], Node.dir),
        (["r".toList, "2021".toList], Node.file Exif.decodeError),
        (["r".toList, "a.jpg".toList], Node.file (Exif.dateTime 2021 5 3))],
    readOnly := [] }

/-- Directory `r` holding only the image `a.jpg` dated 2021-05-03. -/
def fsOneImage : FS :=
  { nodes :=
      [(["r".toList], Node.dir),
        (["r".toList, "a.jpg".toList], Node.file (Exif.dateTime 2021 5 3))],
    readOnly := [] }

/-- The scenario of the specification: directory `r` holding `a.JPG` (dated
2020-01-15), `b.jpg` (undecodable) and `c.txt`. -/
def fsScenario : FS :=
  { nodes :=
      [(["r".toList], Node.dir),
        (["r".toList, "a.JPG".toList], Node.file (Exif.dateTime 2020 1 15)),
        (["r".toList, "b.jpg".toList], Node.file Exif.decodeError),
        (["r".toList, "c.txt".toList], Node.file Exif.noDateTime)],
    readOnly := [] }

/-- The listing of that directory: names and what the decoder finds. -/
def scenarioEntries : List (Str × Exif) :=
  [("a.JPG".toList, Exif.dateTime 2020 1 15), ("b.jpg".toList, Exif.decodeError),
    ("c.txt".toList, Exif.noDateTime)]

/-- Directory `r` holding one file, named `others`. -/
def fsOthersFile : FS :=
  { nodes :=
      [(["r".toList], Node.dir),
        (["r".toList, "others".toList], Node.file Exif.decodeError)],
    readOnly := [] }

/-- Directory `r` without write permission, holding the image `a.jpg` dated
2021-05-03 and the text file `c.txt`. -/
def fsLocked : FS :=
  { nodes :=
      [(["r".toList], Node.dir),
        (["r".toList, "a.jpg".toList], Node.file (Exif.dateTime 2021 5 3)),
        (["r".toList, "c.txt".toList], Node.file Exif.decodeError)],
    readOnly := [["r".toList]] }

/-- Directory `r` holding the image `a.jpg` whose time stamp has the year 0
and the text file `c.txt`. -/
def fsYearZero : FS :=
  { nodes :=
      [(["r".toList], Node.dir),
        (["r".toList, "a.jpg".toList], Node.file (Exif.dateTime 0 1 1)),
        (["r".toList, "c.txt".toList], Node.file Exif.decodeError)],
    readOnly := [] }

/-- Directory `r` holding the image `a.jpg`, which cannot be read, and the
text file `c.txt`. -/
def fsUnreadable : FS :=
  { nodes :=
      [(["r".toList], Node.dir),
        (["r".toList, "a.jpg".toList], Node.file (Exif.dateTime 2021 5 3)),
        (["r".toList, "c.txt".toList], Node.file Exif.decodeError)],
    readOnly := [],
    unreadable := [["r".toList, "a.jpg".toList]] }

/-- Directory `r` holding the images `a.jpg` and `b.jpg` and the text file
`c.txt`, for a process that can hold one file open. -/
def fsOneDescriptor : FS :=
  { nodes :=
      [(["r".toList], Node.dir),
        (["r".toList, "a.jpg".toList], Node.file (Exif.dateTime 2021 5 3)),
        (["r".toList, "b.jpg".toList], Node.file Exif.decodeError),
        (["r".toList, "c.txt".toList], Node.file Exif.decodeError)],
    readOnly := [],
    maxOpen := 1 }

/-! ## Facts about the string functions -/

theorem startsWith_iff (s p : Str) : startsWith s p = true ↔ p <+: s := by
  induction s generalizing p with
  | nil => cases p <;> simp [startsWith]
  | cons c s ih =>
    cases p with
    | nil => simp [startsWith]
    | cons d p =>
      simp only [startsWith, Bool.and_eq_true, decide_eq_true_eq, ih, List.cons_prefix_cons]
      constructor
      · rintro ⟨h1, h2⟩; exact ⟨h1.symm, h2⟩
      · rintro ⟨h1, h2⟩; exact ⟨h1.symm, h2⟩

theorem Contains_iff (s sub : Str) : Contains s sub = true ↔ sub <:+: s := by
  induction s with
  | nil =>
    simp only [Contains, startsWith_iff]
    simp [List.prefix_nil]
  | cons c s ih =>
    simp only [Contains, Bool.or_eq_true, startsWith_iff, ih, List.infix_cons_iff]

theorem Split_ne_nil (s : Str) : Split s ≠ [] := by
  induction s with
  | nil => simp [Split]
  | cons c s ih =>
    simp only [Split]
    split
    · simp
    · split <;> simp

theorem Split_no_slash (a : Str) (h : '/' ∉ a) : Split a = [a] := by
  induction a with
  | nil => rfl
  | cons c a ih =>
    simp only [List.mem_cons, not_or] at h
    simp only [Split, if_neg (Ne.symm h.1), ih h.2]

theorem Split_append_slash (a b : Str) (h : '/' ∉ a) :
    Split (a ++ '/' :: b) = a :: Split b := by
  induction a with
  | nil => simp [Split]
  | cons c a ih =>
    simp only [List.mem_cons, not_or] at h
    have := ih h.2
    rw [List.cons_append]
    simp only [Split, if_neg (Ne.symm h.1)]
    rw [this]

theorem isJpg_iff (file : Str) :
    isJpg file = true ↔ (dotJPG <:+: file ∨ dotjpg <:+: file) := by
  simp only [isJpg, Bool.or_eq_true, Contains_iff]

theorem fileExt_suffix (s : Str) : fileExt s <:+ s := by
  induction s with
  | nil => simp [fileExt]
  | cons c s ih =>
    simp only [fileExt]
    split
    · exact ih.trans (List.suffix_cons c s)
    · split
      · exact List.suffix_refl _
      · exact List.nil_suffix

/-! ## Facts about decimal printing, joining and resolving -/


theorem digitChar_mem (k : Nat) (h : k < 10) : Nat.digitChar k ∈ decChars := by
  interval_cases k <;> decide

theorem toDigitsCore_mem (fuel : Nat) : ∀ (n : Nat) (acc : List Char),
    (∀ c ∈ acc, c ∈ decChars) → ∀ c ∈ Nat.toDigitsCore 10 fuel n acc, c ∈ decChars := by
  induction fuel with
  | zero => intro n acc h c hc; simpa [Nat.toDigitsCore] using h c (by simpa [Nat.toDigitsCore] using hc)
  | succ f ih =>
    intro n acc h c hc
    simp only [Nat.toDigitsCore] at hc
    have hd : ∀ c ∈ Nat.digitChar (n % 10) :: acc, c ∈ decChars := by
      intro c hc
      rcases List.mem_cons.1 hc with rfl | hc
      · exact digitChar_mem _ (Nat.mod_lt _ (by decide))
      · exact h c hc
    split at hc
    · exact hd c hc
    · exact ih _ _ hd c hc

theorem toDigitsCore_ne_nil (fuel : Nat) : ∀ (n : Nat) (acc : List Char),
    acc ≠ [] → Nat.toDigitsCore 10 fuel n acc ≠ [] := by
  induction fuel with
  | zero => intro n acc h; simpa [Nat.toDigitsCore] using h
  | succ f ih =>
    intro n acc h
    simp only [Nat.toDigitsCore]
    split
    · simp
    · exact ih _ _ (by simp)

theorem toDigits_ne_nil (n : Nat) : Nat.toDigits 10 n ≠ [] := by
  simp only [Nat.toDigits, Nat.toDigitsCore]
  split
  · simp
  · exact toDigitsCore_ne_nil _ _ _ (by simp)

theorem fmtInt_mem (i : Int) : ∀ c ∈ fmtInt i, c ∈ decChars := by
  cases i with
  | ofNat n =>
    intro c hc
    exact toDigitsCore_mem _ _ _ (by simp) c hc
  | negSucc n =>
    intro c hc
    rcases List.mem_cons.1 hc with rfl | hc
    · decide
    · exact toDigitsCore_mem _ _ _ (by simp) c hc

theorem fmtInt_ne_nil (i : Int) : fmtInt i ≠ [] := by
  cases i with
  | ofNat n => exact toDigits_ne_nil n
  | negSucc n => simp [fmtInt]

theorem fmtInt_no_slash (i : Int) : '/' ∉ fmtInt i := by
  intro h
  exact absurd (fmtInt_mem i _ h) (by decide)


theorem Split_Join (comps : List Str) (hne : comps ≠ []) (h : ∀ c ∈ comps, '/' ∉ c) :
    Split (Join comps slash) = comps := by
  induction comps with
  | nil => exact absurd rfl hne
  | cons a t ih =>
    cases t with
    | nil => simpa [Join] using Split_no_slash a (h a (by simp))
    | cons b t =>
      have h1 : Join (a :: b :: t) slash = a ++ '/' :: Join (b :: t) slash := by
        simp [Join, slash]
      rw [h1, Split_append_slash a _ (h a (by simp)),
        ih (by simp) (fun c hc => h c (List.mem_cons_of_mem _ hc))]

theorem Join_ne_nil (comps : List Str) (a : Str) (ha : a ≠ []) :
    Join (a :: comps) slash ≠ [] := by
  cases comps with
  | nil => simpa [Join] using ha
  | cons b t => simp [Join, ha]

theorem Join_head (comps : List Str) (a : Str) (ha : a ≠ []) :
    (Join (a :: comps) slash).head? = a.head? := by
  cases a with
  | nil => exact absurd rfl ha
  | cons c a =>
    cases comps with
    | nil => simp [Join]
    | cons b t => simp [Join]

/-- A path string made of non-empty slash-free components resolves to them. -/
theorem resolve_Join (comps : List Str) (a : Str)
    (h : ∀ c ∈ a :: comps, c ≠ [] ∧ '/' ∉ c) :
    resolve (Join (a :: comps) slash) = some (a :: comps) := by
  have ha := h a (by simp)
  have hs := Split_Join (a :: comps) (by simp) (fun c hc => (h c hc).2)
  have hh : (Join (a :: comps) slash).head? ≠ some '/' := by
    rw [Join_head comps a ha.1]
    intro hc
    cases a with
    | nil => exact ha.1 rfl
    | cons c a =>
      simp only [List.head?_cons, Option.some.injEq] at hc
      exact ha.2 (by simp [hc])
  unfold resolve
  rw [if_neg (Join_ne_nil comps a ha.1), if_neg hh, hs]
  simp only [List.nil_append, Option.some.injEq, List.filter_eq_self]
  intro c hc
  have := (h c hc).1
  cases c with
  | nil => exact absurd rfl this
  | cons x c => rfl

/-- A non-empty pattern found in `a ++ b`, none of whose characters occurs
in `b`, is found in `a`. -/
theorem infix_of_append (s a b : Str) (hs : s ≠ []) (hc : ∀ c ∈ s, c ∉ b)
    (h : s <:+: a ++ b) : s <:+: a := by
  obtain ⟨l1, l2, h⟩ := h
  rw [List.append_eq_append_iff] at h
  rcases h with ⟨a', h1, h2⟩ | ⟨c', h1, h2⟩
  · -- a ++ b = (l1 ++ s) ++ l2 with a = (l1 ++ s) ++ a'
    exact ⟨l1, a', h1.symm⟩
  · -- l1 ++ s = a ++ c', b = c' ++ l2
    rw [List.append_eq_append_iff] at h1
    rcases h1 with ⟨x, h3, h4⟩ | ⟨x, h3, h4⟩
    · -- a = l1 ++ x, s = x ++ c'
      have hc' : c' = [] := by
        cases c' with
        | nil => rfl
        | cons y c' =>
          exfalso
          exact hc y (by simp [h4]) (by simp [h2])
      subst hc'
      simp only [List.append_nil] at h4
      subst h4
      exact ⟨l1, [], by simp [h3]⟩
    · -- l1 = a ++ x, c' = x ++ s
      exfalso
      cases s with
      | nil => exact hs rfl
      | cons y s => exact hc y (by simp) (by simp [h2, h4])


/-! ## Classification of file names (C2) -/

/-- C2, as stated, fails: the name "a.Jpg" has the extension ".jpg" up to
case but `parseFiles` files it with the other files, and "a.jpg.txt" and
"a.jpgx" have another extension but are filed with the images.  So the code
does not agree with classification by case-insensitive extension. -/
theorem classify_not_by_extension :
    (classify "a.Jpg".toList = Classification.Generic ∧
      classifyByExt "a.Jpg".toList = Classification.Image) ∧
    (classify "a.jpg.txt".toList = Classification.Image ∧
      classifyByExt "a.jpg.txt".toList = Classification.Generic) ∧
    (classify "a.jpgx".toList = Classification.Image ∧
      classifyByExt "a.jpgx".toList = Classification.Generic) ∧
    parseFiles "r".toList [⟨"a.Jpg".toList, false⟩, ⟨"a.jpg.txt".toList, false⟩] =
      (["r/a.jpg.txt".toList], ["r/a.Jpg".toList]) ∧
    ¬ (∀ file : Str, classify file = classifyByExt file) := by
  refine ⟨by decide, by decide, by decide, by decide, ?_⟩
  intro h
  exact absurd (h "a.Jpg".toList) (by decide)

/-- C2, amended: `parseFiles` puts a non-directory entry in the image list
when its classification is Image and in the other list when it is Generic;
a file name is classified Image exactly when it contains ".JPG" or ".jpg" as
a contiguous substring, and Generic exactly when it contains neither; every
name whose extension is literally ".jpg" or ".JPG" is Image, while "a.png"
and the mixed-case names "a.Jpg" and "a.jPG" are Generic. -/
theorem classify_substring (parent file : Str) :
    parseFiles parent [⟨file, false⟩] =
      (if classify file = Classification.Image then ([parent ++ slash ++ file], [])
        else ([], [parent ++ slash ++ file])) ∧
    (classify file = Classification.Image ↔
      (dotJPG <:+: file ∨ dotjpg <:+: file)) ∧
    (classify file = Classification.Generic ↔
      ¬ (dotJPG <:+: file ∨ dotjpg <:+: file)) ∧
    (classify file = Classification.Image ∨
      fileExt file ∉ [dotjpg, dotJPG]) ∧
    classify "a.png".toList = Classification.Generic ∧
    classify "a.Jpg".toList = Classification.Generic ∧
    classify "a.jPG".toList = Classification.Generic := by
  have hiff := isJpg_iff file
  refine ⟨?_, ?_, ?_, ?_, by decide, by decide, by decide⟩
  · cases hj : isJpg file <;> simp [parseFiles, parseStep, classify, hj]
  · rw [← hiff]
    unfold classify
    split <;> simp_all
  · rw [← hiff]
    unfold classify
    split <;> simp_all
  · by_cases h : fileExt file ∈ [dotjpg, dotJPG]
    · left
      have hs := (fileExt_suffix file).isInfix
      have hj : isJpg file = true := by
        rw [hiff]
        simp only [List.mem_cons, List.mem_singleton, List.not_mem_nil, or_false] at h
        rcases h with h | h
        · right; rw [← h]; exact hs
        · left; rw [← h]; exact hs
      simp [classify, hj]
    · right; exact h

/-! ## The two lists of `parseFiles` (C10) -/

theorem foldl_parseStep (parent : Str) (files : List FileInfo) (acc : List Str × List Str) :
    files.foldl (parseStep parent) acc =
      (acc.1 ++ (files.filter (fun f => !f.isDir && isJpg f.name)).map
          (fun f => parent ++ slash ++ f.name),
        acc.2 ++ (files.filter (fun f => !f.isDir && !isJpg f.name)).map
          (fun f => parent ++ slash ++ f.name)) := by
  induction files generalizing acc with
  | nil => simp
  | cons f rest ih =>
    rw [List.foldl_cons, ih]
    cases hd : f.isDir <;> cases hj : isJpg f.name <;>
      simp [parseStep, hd, hj, List.filter_cons]

/-- C10: for every parent path and listing, the image list of `parseFiles`
is, in listing order, the paths parent + "/" + name of the non-directory
entries that pass the image test, and the other list those of the
non-directory entries that fail it; so the two lists together are a
rearrangement of the paths of the non-directory entries, each entry
counted once, their lengths add up to the number of non-directory
entries, and a listing of directories only gives two empty lists. -/
theorem parseFiles_partition (parent : Str) (files : List FileInfo) :
    (parseFiles parent files).1 =
      (files.filter (fun f => !f.isDir && isJpg f.name)).map
        (fun f => parent ++ slash ++ f.name) ∧
    (parseFiles parent files).2 =
      (files.filter (fun f => !f.isDir && !isJpg f.name)).map
        (fun f => parent ++ slash ++ f.name) ∧
    List.Perm ((parseFiles parent files).1 ++ (parseFiles parent files).2)
      ((files.filter (fun f => !f.isDir)).map (fun f => parent ++ slash ++ f.name)) ∧
    (parseFiles parent files).1.length + (parseFiles parent files).2.length =
      (files.filter (fun f => !f.isDir)).length ∧
    parseFiles parent (files.filter (fun f => f.isDir)) = ([], []) := by
  have h := foldl_parseStep parent files ([], [])
  have h1 : (parseFiles parent files).1 =
      (files.filter (fun f => !f.isDir && isJpg f.name)).map
        (fun f => parent ++ slash ++ f.name) := by
    simp [parseFiles, h]
  have h2 : (parseFiles parent files).2 =
      (files.filter (fun f => !f.isDir && !isJpg f.name)).map
        (fun f => parent ++ slash ++ f.name) := by
    simp [parseFiles, h]
  have hperm : List.Perm
      ((files.filter (fun f => !f.isDir && isJpg f.name)) ++
        (files.filter (fun f => !f.isDir && !isJpg f.name)))
      (files.filter (fun f => !f.isDir)) := by
    have e1 : files.filter (fun f => !f.isDir && isJpg f.name) =
        (files.filter (fun f => !f.isDir)).filter (fun f => isJpg f.name) := by
      rw [List.filter_filter]
      congr 1
      funext f
      exact Bool.and_comm _ _
    have e2 : files.filter (fun f => !f.isDir && !isJpg f.name) =
        (files.filter (fun f => !f.isDir)).filter (fun f => !isJpg f.name) := by
      rw [List.filter_filter]
      congr 1
      funext f
      exact Bool.and_comm _ _
    rw [e1, e2]
    exact List.filter_append_perm _ _
  refine ⟨h1, h2, ?_, ?_, ?_⟩
  · rw [h1, h2, ← List.map_append]
    exact hperm.map _
  · rw [h1, h2, List.length_map, List.length_map, ← List.length_append]
    exact hperm.length_eq
  · have h3 := foldl_parseStep parent (files.filter (fun f => f.isDir)) ([], [])
    rw [parseFiles, h3]
    simp [List.filter_filter]
    exact ⟨fun _ _ h _ => h, fun _ _ h _ => h⟩

/-! ## Where `move` sends the sentinel dates (C3) -/

theorem count_slash_two (a b c : Str) :
    2 ≤ List.count '/' (a ++ slash ++ b ++ slash ++ c) := by
  simp only [List.count_append]
  have : List.count '/' slash = 1 := by decide
  omega

/-- C3: for every picture path, with `base` the first piece of the path,
`move` computes the directory base/unknown_dates for the date (0,0,0) (and
for every date with year 0, such as the zero date of a file whose metadata
decoded) and base/error_files for the date (-1,-1,-1); the two differ, and
neither has the form base/y/m/d for any integers y, m, d. -/
theorem sentinel_destination (path : Str) :
    ∃ base rest, Split path = base :: rest ∧
      moveDest ⟨path, (0, 0, 0)⟩ = some (base ++ slash ++ unknownDates) ∧
      moveDest ⟨path, (-1, -1, -1)⟩ = some (base ++ slash ++ errorFiles) ∧
      dateOf (Node.file Exif.noDateTime) = (0, 0, 0) ∧
      dateOf (Node.file Exif.decodeError) = (-1, -1, -1) ∧
      moveDest ⟨path, dateOf (Node.file (Exif.dateTime 0 0 0))⟩ =
        some (base ++ slash ++ unknownDates) ∧
      (∀ m d : Int, moveDest ⟨path, (0, m, d)⟩ = some (base ++ slash ++ unknownDates)) ∧
      base ++ slash ++ unknownDates ≠ base ++ slash ++ errorFiles ∧
      (∀ y m d : Int,
        base ++ slash ++ unknownDates ≠
          base ++ slash ++ fmtInt y ++ slash ++ fmtInt m ++ slash ++ fmtInt d) ∧
      (∀ y m d : Int,
        base ++ slash ++ errorFiles ≠
          base ++ slash ++ fmtInt y ++ slash ++ fmtInt m ++ slash ++ fmtInt d) := by
  obtain ⟨base, rest, hs⟩ := List.exists_cons_of_ne_nil (Split_ne_nil path)
  refine ⟨base, rest, hs, ?_, ?_, rfl, rfl, ?_, ?_, ?_, ?_, ?_⟩
  · simp [moveDest, hs]
  · simp [moveDest, hs]
  · simp [moveDest, hs, dateOf]
  · intro m d
    simp [moveDest, hs]
  · intro h
    exact absurd (List.append_cancel_left h) (by decide)
  · intro y m d h
    have h2 := congrArg (List.count '/') h
    have h3 := count_slash_two (fmtInt y) (fmtInt m) (fmtInt d)
    simp only [List.count_append, List.append_assoc] at h2 h3
    have e1 : List.count '/' unknownDates = 0 := by decide
    have e2 : List.count '/' slash = 1 := by decide
    omega
  · intro y m d h
    have h2 := congrArg (List.count '/') h
    have h3 := count_slash_two (fmtInt y) (fmtInt m) (fmtInt d)
    simp only [List.count_append, List.append_assoc] at h2 h3
    have e1 : List.count '/' errorFiles = 0 := by decide
    have e2 : List.count '/' slash = 1 := by decide
    omega

/-! ## Rename targets for input directories with several segments (C5) -/

/-- Whenever `move` returns, its last system call is the `os.Rename` of the
picture's path to `moveTarget`. -/
theorem move_calls_rename (p : Picture) (w w1 : World) (h : move p w = Result.ok () w1) :
    ∃ t e, moveTarget p = some t ∧ w1.trace.getLast? = some (Call.rename p.path t e) := by
  unfold move at h
  unfold moveTarget
  cases hd : moveDest p with
  | none => simp [hd] at h
  | some nb =>
    simp only [hd] at h ⊢
    cases hb : buildIfMissing nb w with
    | fatal w2 => simp [hb, Result.bind] at h
    | panic w2 => simp [hb, Result.bind] at h
    | ok u w2 =>
      simp only [hb, Result.bind] at h
      cases hn : (Split p.path)[1]? with
      | none => simp [hn] at h
      | some name =>
        simp only [hn, Result.ok.injEq, true_and] at h
        refine ⟨nb ++ slash ++ name, ?_⟩
        unfold World.rename at h
        cases hr : w2.fs.rename p.path (nb ++ slash ++ name) with
        | ok fs1 =>
          simp only [hr] at h
          exact ⟨none, rfl, by rw [← h]; simp⟩
        | err e =>
          simp only [hr] at h
          exact ⟨some e, rfl, by rw [← h]; simp⟩

/-- C5 fails on the code: `move` and `organize` take piece 0 of the split
path as the base directory and piece 1 as the file name.  For the input
directory "a/b" the image a/b/c.jpg dated 2020-01-15 is renamed to
a/2020/1/15/b and the file a/b/d.txt to a/others/b; for "/home/u" the target
is /2020/1/15/home; for "p/" (trailing slash) it is p/2020/1/15/ with an
empty file name.  None of these lies under the input directory with the
original file name last. -/
theorem rename_target_wrong_for_nested_input :
    parseFiles "a/b".toList [⟨"c.jpg".toList, false⟩, ⟨"d.txt".toList, false⟩] =
      (["a/b/c.jpg".toList], ["a/b/d.txt".toList]) ∧
    moveTarget ⟨"a/b/c.jpg".toList, (2020, 1, 15)⟩ = some "a/2020/1/15/b".toList ∧
    othersTarget "a".toList "a/b/d.txt".toList = some "a/others/b".toList ∧
    moveTarget ⟨"/home/u/c.jpg".toList, (2020, 1, 15)⟩ = some "/2020/1/15/home".toList ∧
    moveTarget ⟨"p//c.jpg".toList, (2020, 1, 15)⟩ = some "p/2020/1/15/".toList ∧
    (organize (["a/b/c.jpg".toList], ["a/b/d.txt".toList]) ⟨fsNested, []⟩).isOk = true ∧
    Call.rename "a/b/c.jpg".toList "a/2020/1/15/b".toList none ∈
      (organize (["a/b/c.jpg".toList], ["a/b/d.txt".toList]) ⟨fsNested, []⟩).world.trace ∧
    Call.rename "a/b/d.txt".toList "a/others/b".toList none ∈
      (organize (["a/b/c.jpg".toList], ["a/b/d.txt".toList]) ⟨fsNested, []⟩).world.trace := by
  decide

/-! ## An empty list of other files (C6) -/

theorem organize_nil_not_ok (imgs : List Str) (w : World) :
    (organize (imgs, []) w).isOk = false := by
  unfold organize
  cases setPictureDates imgs w with
  | ok pics w1 =>
    simp only [Result.bind]
    cases movePics pics w1 <;> simp [Result.bind, Result.isOk]
  | fatal w1 => simp [Result.bind, Result.isOk]
  | panic w1 => simp [Result.bind, Result.isOk]

/-- C6 fails on the code: with an empty list of other files `organize`
never returns, whatever the images and the filesystem are.  On a directory
of subfolders only, `parseFiles` gives two empty lists and `organize` panics
at `files[1][0]` before any system call; on a directory of images only, the
images are moved and then the same panic stops the run. -/
theorem organize_panics_without_other_files :
    (∀ (imgs : List Str) (w : World), (organize (imgs, []) w).isOk = false) ∧
    parseFiles "r".toList [⟨"2020".toList, true⟩, ⟨"others".toList, true⟩] = ([], []) ∧
    organize ([], []) ⟨fsOrganized, []⟩ = Result.panic ⟨fsOrganized, []⟩ ∧
    parseFiles "r".toList [⟨"a.JPG".toList, false⟩, ⟨"b.jpg".toList, false⟩] =
      (["r/a.JPG".toList, "r/b.jpg".toList], []) ∧
    (∃ w, organize (["r/a.JPG".toList, "r/b.jpg".toList], []) ⟨fsImagesOnly, []⟩ =
        Result.panic w ∧
      w.fs.look ["r".toList, "2020".toList, "1".toList, "15".toList, "a.JPG".toList] =
        some (Node.file (Exif.dateTime 2020 1 15)) ∧
      w.fs.look ["r".toList, "error_files".toList, "b.jpg".toList] =
        some (Node.file Exif.decodeError)) := by
  refine ⟨organize_nil_not_ok, by decide, by decide, by decide, ?_⟩
  refine ⟨(organize (["r/a.JPG".toList, "r/b.jpg".toList], []) ⟨fsImagesOnly, []⟩).world,
    by decide, by decide, by decide⟩

/-! ## A base directory whose name contains a folder name (C7) -/

/-- C7 fails on the code: `buildPath` picks its branch by searching the
whole path for "unknown_dates" and "error_files".  For the existing base
directory `error_files` and the destination error_files/2020/1/15 it takes
the single-level branch, tries to create the day directory while the year
directory is missing, and `log.Fatal` ends the run; the destination does
not exist afterwards.  The same happens for the base `my_unknown_dates`.
`move` on the image error_files/a.jpg therefore ends the same way and the
image stays where it was. -/
theorem buildPath_fatal_for_marker_base :
    buildPath "error_files/2020/1/15".toList ⟨fsMarkerName, []⟩ =
      Result.fatal ⟨fsMarkerName,
        [Call.stat "error_files/2020/1/15".toList,
          Call.mkdir "error_files/2020/1/15".toList (some Errno.ENOENT)]⟩ ∧
    fsMarkerName.stat "error_files".toList = Sys.ok Node.dir ∧
    fsMarkerName.stat "error_files/2020/1/15".toList = Sys.err Errno.ENOENT ∧
    buildPath "my_unknown_dates/2020/1/15".toList ⟨fsMarkerName, []⟩ =
      Result.fatal ⟨fsMarkerName,
        [Call.stat "my_unknown_dates/2020/1/15".toList,
          Call.mkdir "my_unknown_dates/2020/1/15".toList (some Errno.ENOENT)]⟩ ∧
    (move ⟨"error_files/a.jpg".toList, (2020, 1, 15)⟩ ⟨fsMarkerName, []⟩).isOk = false ∧
    (move ⟨"error_files/a.jpg".toList, (2020, 1, 15)⟩ ⟨fsMarkerName, []⟩).world.fs =
      fsMarkerName := by
  decide

/-! ## A failing creation of the "others" folder (C9) -/

/-- C9 fails on the code for the "others" folder: in the directory `r`
without write permission, `os.Mkdir` of r/others fails with EACCES,
`organize` drops the error, goes on to the renames of both text files and
returns normally.  For the image r/b.jpg in the same directory the failing
`os.Mkdir` of r/error_files inside `buildPath` is fatal. -/
theorem others_mkdir_failure_ignored :
    organize ([], ["r/c.txt".toList, "r/d.txt".toList]) ⟨fsReadOnly, []⟩ =
      Result.ok () ⟨fsReadOnly,
        [Call.mkdir "r/others".toList (some Errno.EACCES),
          Call.rename "r/c.txt".toList "r/others/c.txt".toList (some Errno.ENOENT),
          Call.rename "r/d.txt".toList "r/others/d.txt".toList (some Errno.ENOENT)]⟩ ∧
    organize (["r/b.jpg".toList], ["r/c.txt".toList]) ⟨fsReadOnly, []⟩ =
      Result.fatal ⟨fsReadOnly,
        [Call.openFile "r/b.jpg".toList none,
          Call.stat "r/error_files".toList, Call.stat "r/error_files".toList,
          Call.mkdir "r/error_files".toList (some Errno.EACCES)]⟩ := by
  decide

/-! ## Facts about the filesystem model -/

theorem look_cons (fs : FS) (q : Path) (k : Node)
    (hq : fs.look q = none) (x : Path) :
    FS.look { fs with nodes := (q, k) :: fs.nodes } x =
      if x = q then some k else fs.look x := by
  unfold FS.look at hq ⊢
  by_cases hx : x = [] ∨ x = [[]]
  · have hne : x ≠ q := by
      rintro rfl
      simp [hx] at hq
    simp [hx, hne]
  · simp only [hx, if_false, lookupNode]
    by_cases hxq : x = q
    · simp [hxq]
    · have : ¬ q = x := fun h => hxq h.symm
      simp [hxq, this]

theorem walkFrom_snoc (fs : FS) (pre rest : Path) (s : Str) :
    fs.walkFrom pre (rest ++ [s]) =
      match fs.walkFrom pre rest with
      | Sys.ok Node.dir =>
        (match fs.look (pre ++ rest ++ [s]) with
          | some n => Sys.ok n
          | none => Sys.err Errno.ENOENT)
      | Sys.ok (Node.file _) => Sys.err Errno.ENOTDIR
      | Sys.err e => Sys.err e := by
  induction rest generalizing pre with
  | nil =>
    simp only [List.nil_append, FS.walkFrom, List.append_nil]
    cases h : fs.look pre with
    | none => simp
    | some n => cases n <;> simp
  | cons a rest ih =>
    simp only [List.cons_append, FS.walkFrom]
    cases h : fs.look pre with
    | none => simp
    | some n =>
      cases n with
      | dir =>
        simp only [List.append_eq]
        rw [ih]
        simp
      | file c => simp

theorem walk_snoc (fs : FS) (q : Path) (s : Str) :
    fs.walk (q ++ [s]) =
      match fs.walk q with
      | Sys.ok Node.dir =>
        (match fs.look (q ++ [s]) with
          | some n => Sys.ok n
          | none => Sys.err Errno.ENOENT)
      | Sys.ok (Node.file _) => Sys.err Errno.ENOTDIR
      | Sys.err e => Sys.err e := by
  have := walkFrom_snoc fs [] q s
  simpa [FS.walk] using this

/-- Adding a node at a free path changes no lookup that did not stop for a
missing component. -/
theorem walkFrom_add (fs fs1 : FS) (q : Path) (k : Node)
    (hl : ∀ x, fs1.look x = if x = q then some k else fs.look x) (hq : fs.look q = none)
    (pre rest : Path) (h : fs.walkFrom pre rest ≠ Sys.err Errno.ENOENT) :
    fs1.walkFrom pre rest = fs.walkFrom pre rest := by
  induction rest generalizing pre with
  | nil =>
    simp only [FS.walkFrom] at h ⊢
    have hne : pre ≠ q := by
      rintro rfl
      simp [hq] at h
    rw [hl, if_neg hne]
  | cons a rest ih =>
    simp only [FS.walkFrom] at h ⊢
    have hne : pre ≠ q := by
      rintro rfl
      simp [hq] at h
    rw [hl, if_neg hne]
    cases hp : fs.look pre with
    | none => rfl
    | some n =>
      cases n with
      | dir =>
        simp only [hp] at h ⊢
        exact ih _ h
      | file c => rfl


@[simp] theorem bind_ok {α β : Type} (a : α) (w : World) (k : α → World → Result β) :
    (Result.ok a w).bind k = k a w := rfl

@[simp] theorem bind_fatal {α β : Type} (w : World) (k : α → World → Result β) :
    (Result.fatal w : Result α).bind k = Result.fatal w := rfl

@[simp] theorem bind_panic {α β : Type} (w : World) (k : α → World → Result β) :
    (Result.panic w : Result α).bind k = Result.panic w := rfl

theorem mkdir_ok (fs fs1 : FS) (p : Str) (h : fs.mkdir p = Sys.ok fs1) :
    ∃ q, resolve p = some q ∧ fs.walk q.dropLast = Sys.ok Node.dir ∧ fs.look q = none ∧
      q.dropLast ∉ fs.readOnly ∧ fs1 = { fs with nodes := (q, Node.dir) :: fs.nodes } := by
  unfold FS.mkdir at h
  cases hr : resolve p with
  | none => simp [hr] at h
  | some q =>
    simp only [hr] at h
    cases hw : fs.walk q.dropLast with
    | err e => simp [hw] at h
    | ok n =>
      cases n with
      | file c => simp [hw] at h
      | dir =>
        simp only [hw] at h
        cases hl : fs.look q with
        | some n => simp [hl] at h
        | none =>
          simp only [hl] at h
          by_cases hro : q.dropLast ∈ fs.readOnly
          · simp [hro] at h
          · simp only [hro, if_false, Sys.ok.injEq] at h
            exact ⟨q, rfl, hw, hl, hro, h.symm⟩

theorem look_after_mkdir (fs : FS) (q : Path) (hq : fs.look q = none) (x : Path) :
    FS.look { fs with nodes := (q, Node.dir) :: fs.nodes } x =
      if x = q then some Node.dir else fs.look x :=
  look_cons fs q Node.dir hq x

theorem walk_after_mkdir (fs : FS) (q : Path) (hq : fs.look q = none) (x : Path)
    (h : fs.walk x ≠ Sys.err Errno.ENOENT) :
    FS.walk { fs with nodes := (q, Node.dir) :: fs.nodes } x = fs.walk x :=
  walkFrom_add fs _ q Node.dir (look_after_mkdir fs q hq) hq [] x h

theorem walk_new_dir (fs : FS) (q : Path) (hq : fs.look q = none)
    (hp : fs.walk q.dropLast = Sys.ok Node.dir) :
    FS.walk { fs with nodes := (q, Node.dir) :: fs.nodes } q = Sys.ok Node.dir := by
  have hne : q ≠ [] := by
    rintro rfl
    simp [FS.look] at hq
  have hsplit : q = q.dropLast ++ [q.getLast hne] := (List.dropLast_append_getLast hne).symm
  have h1 := walk_after_mkdir fs q hq q.dropLast (by rw [hp]; simp)
  rw [hsplit, walk_snoc, ← hsplit, h1, hp]
  simp [look_after_mkdir fs q hq]

/-- A successful `os.Mkdir` leaves every path that `os.Stat` did not report
as missing in that state, and the new directory is found afterwards. -/
theorem stat_after_mkdir (fs fs1 : FS) (p : Str) (h : fs.mkdir p = Sys.ok fs1) :
    isNotExist (fs1.stat p) = false ∧
      ∀ x, isNotExist (fs.stat x) = false → fs1.stat x = fs.stat x := by
  obtain ⟨q, hr, hw, hl, _, rfl⟩ := mkdir_ok fs fs1 p h
  constructor
  · simp only [FS.stat, hr, walk_new_dir fs q hl hw, isNotExist]
  · intro x hx
    unfold FS.stat at hx ⊢
    cases hrx : resolve x with
    | none => rfl
    | some qx =>
      simp only [hrx] at hx ⊢
      apply walk_after_mkdir fs q hl
      intro hc
      rw [hc] at hx
      simp [isNotExist] at hx

theorem ensureDir_ok (p : Str) (w w1 : World) (h : ensureDir p w = Result.ok () w1) :
    (isNotExist (w.fs.stat p) = false ∧ w1 = ⟨w.fs, w.trace ++ [Call.stat p]⟩) ∨
    (isNotExist (w.fs.stat p) = true ∧ ∃ fs1, w.fs.mkdir p = Sys.ok fs1 ∧
      w1 = ⟨fs1, w.trace ++ [Call.stat p] ++ [Call.mkdir p none]⟩) := by
  unfold ensureDir at h
  simp only [World.stat] at h
  by_cases hs : isNotExist (w.fs.stat p) = true
  · right
    simp only [hs, if_true, World.mkdir] at h
    cases hm : w.fs.mkdir p with
    | ok fs1 =>
      simp only [hm, Result.ok.injEq, true_and] at h
      exact ⟨hs, fs1, rfl, h.symm⟩
    | err e => simp [hm] at h
  · left
    simp only [hs] at h
    simp only [Bool.not_eq_true] at hs
    simp only [Bool.false_eq_true, if_false, Result.ok.injEq, true_and] at h
    exact ⟨hs, h.symm⟩

theorem ensureDir_settled (p : Str) (fs : FS) (t : List Call)
    (h : isNotExist (fs.stat p) = false) :
    ensureDir p ⟨fs, t⟩ = Result.ok () ⟨fs, t ++ [Call.stat p]⟩ := by
  simp [ensureDir, World.stat, h]

theorem ensureDir_keeps (p : Str) (w w1 : World) (h : ensureDir p w = Result.ok () w1) :
    isNotExist (w1.fs.stat p) = false ∧
      ∀ x, isNotExist (w.fs.stat x) = false → isNotExist (w1.fs.stat x) = false := by
  rcases ensureDir_ok p w w1 h with ⟨hs, rfl⟩ | ⟨_, fs1, hm, rfl⟩
  · exact ⟨hs, fun x hx => hx⟩
  · have := stat_after_mkdir w.fs fs1 p hm
    refine ⟨this.1, fun x hx => ?_⟩
    simp only [this.2 x hx, hx]


theorem buildPath_marker (p : Str) (w : World)
    (h : Contains p unknownDates = true ∨ Contains p errorFiles = true) :
    buildPath p w = ensureDir p w := by
  unfold buildPath
  rcases h with h | h
  · simp [h]
  · simp [h]

theorem buildPath_date (p : Str) (w : World)
    (hu : Contains p unknownDates = false)
    (he : Contains p errorFiles = false) :
    buildPath p w =
      match sliceTo (Split p) 2 with
      | none => Result.panic w
      | some year =>
        (ensureDir (Join year slash) w).bind fun _ w1 =>
          match sliceTo (Split p) 3 with
          | none => Result.panic w1
          | some month =>
            (ensureDir (Join month slash) w1).bind fun _ w2 =>
              ensureDir (Join (Split p) slash) w2 := by
  unfold buildPath
  simp [hu, he]

/-! ## `buildPath` twice (C8) -/

/-- C8: when a call of `buildPath` returns (no `log.Fatal`, no panic), a
second call with the same path on the filesystem it left returns as well,
makes no `os.Mkdir` call (only `os.Stat` calls), and leaves the filesystem
as it was after the first call. -/
theorem buildPath_idempotent (p : Str) (w w1 : World)
    (h : buildPath p w = Result.ok () w1) :
    ∃ t, buildPath p ⟨w1.fs, []⟩ = Result.ok () ⟨w1.fs, t⟩ ∧
      (∀ q e, Call.mkdir q e ∉ t) ∧ ∀ c ∈ t, ∃ q, c = Call.stat q := by
  by_cases hm : Contains p unknownDates = true ∨
      Contains p errorFiles = true
  · rw [buildPath_marker p _ hm] at h ⊢
    have hk := (ensureDir_keeps p w w1 h).1
    exact ⟨_, ensureDir_settled p w1.fs [] hk, by simp, by simp⟩
  · simp only [not_or, Bool.not_eq_true] at hm
    rw [buildPath_date p _ hm.1 hm.2] at h ⊢
    cases h2 : sliceTo (Split p) 2 with
    | none => simp [h2] at h
    | some year =>
      simp only [h2] at h ⊢
      cases ha : ensureDir (Join year slash) w with
      | fatal wa => simp [ha] at h
      | panic wa => simp [ha] at h
      | ok u wa =>
        simp only [ha, bind_ok] at h
        cases h3 : sliceTo (Split p) 3 with
        | none => simp [h3] at h
        | some month =>
          simp only [h3] at h ⊢
          cases hb : ensureDir (Join month slash) wa with
          | fatal wb => simp [hb] at h
          | panic wb => simp [hb] at h
          | ok u2 wb =>
            simp only [hb, bind_ok] at h
            have ka := ensureDir_keeps _ w wa ha
            have kb := ensureDir_keeps _ wa wb hb
            have kc := ensureDir_keeps _ wb w1 h
            have s1 : isNotExist (w1.fs.stat (Join year slash)) = false :=
              kc.2 _ (kb.2 _ ka.1)
            have s2 : isNotExist (w1.fs.stat (Join month slash)) = false :=
              kc.2 _ kb.1
            have s3 := kc.1
            refine ⟨[Call.stat (Join year slash), Call.stat (Join month slash),
              Call.stat (Join (Split p) slash)], ?_, by simp, by simp⟩
            rw [ensureDir_settled _ w1.fs _ s1, bind_ok, ensureDir_settled _ w1.fs _ s2,
              bind_ok, ensureDir_settled _ w1.fs _ s3]
            simp

/-- Witness of C8: after `buildPath` has created r/2020/1/15 in the empty
directory `r`, a second call only looks. -/
theorem buildPath_idempotent_witness :
    buildPath "r/2020/1/15".toList ⟨fsEmptyDir, []⟩ =
      Result.ok () (buildPath "r/2020/1/15".toList ⟨fsEmptyDir, []⟩).world ∧
    ∃ t, buildPath "r/2020/1/15".toList
        ⟨(buildPath "r/2020/1/15".toList ⟨fsEmptyDir, []⟩).world.fs, []⟩ =
        Result.ok () ⟨(buildPath "r/2020/1/15".toList ⟨fsEmptyDir, []⟩).world.fs, t⟩ ∧
      (∀ q e, Call.mkdir q e ∉ t) ∧ ∀ c ∈ t, ∃ q, c = Call.stat q :=
  ⟨by decide, buildPath_idempotent "r/2020/1/15".toList ⟨fsEmptyDir, []⟩
    (buildPath "r/2020/1/15".toList ⟨fsEmptyDir, []⟩).world (by decide)⟩

theorem look_nil (fs : FS) : fs.look [] = some Node.dir := by
  simp [FS.look]

theorem walk_nil (fs : FS) : fs.walk [] = Sys.ok Node.dir := by
  simp [FS.walk, FS.walkFrom, look_nil]

theorem walk_dir_snoc (fs : FS) (q : Path) (s : Str) (h : fs.walk q = Sys.ok Node.dir) :
    fs.walk (q ++ [s]) =
      match fs.look (q ++ [s]) with
      | some n => Sys.ok n
      | none => Sys.err Errno.ENOENT := by
  rw [walk_snoc, h]

theorem stat_resolved (fs : FS) (p : Str) (q : Path) (h : resolve p = some q) :
    fs.stat p = fs.walk q := by
  simp [FS.stat, h]

/-- The check-then-create step on a path whose parent is a writable
directory and which is not occupied by a file: it returns, the path is a
directory afterwards, and nothing else changes. -/
theorem ensureDir_spec (p : Str) (par : Path) (s : Str) (fs : FS) (t : List Call)
    (hr : resolve p = some (par ++ [s]))
    (hp : fs.walk par = Sys.ok Node.dir)
    (hl : ∀ c, fs.look (par ++ [s]) ≠ some (Node.file c))
    (hro : par ∉ fs.readOnly) :
    ∃ fs1 t1, ensureDir p ⟨fs, t⟩ = Result.ok () ⟨fs1, t1⟩ ∧
      fs1.walk (par ++ [s]) = Sys.ok Node.dir ∧
      (∀ x, fs1.look x = if x = par ++ [s] then some Node.dir else fs.look x) ∧
      fs1.readOnly = fs.readOnly := by
  have hst : fs.stat p = fs.walk (par ++ [s]) := stat_resolved fs p _ hr
  have hw := walk_dir_snoc fs par s hp
  cases hk : fs.look (par ++ [s]) with
  | none =>
    rw [hk] at hw
    have hm : fs.mkdir p = Sys.ok { fs with nodes := (par ++ [s], Node.dir) :: fs.nodes } := by
      simp [FS.mkdir, hr, hp, hk, hro]
    refine ⟨_, t ++ [Call.stat p] ++ [Call.mkdir p none], ?_, ?_, look_after_mkdir fs _ hk, rfl⟩
    · simp [ensureDir, World.stat, hst, hw, isNotExist, World.mkdir, hm]
    · apply walk_new_dir fs _ hk
      simpa using hp
  | some n =>
    cases n with
    | file c => exact absurd hk (hl c)
    | dir =>
      rw [hk] at hw
      refine ⟨fs, t ++ [Call.stat p], ?_, hw, ?_, rfl⟩
      · exact ensureDir_settled p fs t (by rw [hst, hw]; rfl)
      · intro x
        by_cases hx : x = par ++ [s]
        · simp [hx, hk]
        · simp [hx]

theorem lookupNode_filter (nodes : List (Path × Node)) (a b x : Path) :
    lookupNode (nodes.filter (fun e => decide (e.1 ≠ a ∧ e.1 ≠ b))) x =
      if x = a ∨ x = b then none else lookupNode nodes x := by
  induction nodes with
  | nil => simp [lookupNode]
  | cons e rest ih =>
    obtain ⟨p, k⟩ := e
    by_cases hpa : p = a
    · subst hpa
      simp only [List.filter_cons, ne_eq, not_true_eq_false, false_and, decide_False,
        Bool.false_eq_true, if_false, ih, lookupNode]
      by_cases hx : p = x
      · simp [hx]
      · have : ¬ x = p := fun h => hx h.symm
        simp [hx, this]
    · by_cases hpb : p = b
      · subst hpb
        simp only [List.filter_cons, ne_eq, not_true_eq_false, and_false, decide_False,
          Bool.false_eq_true, if_false, ih, lookupNode]
        by_cases hx : p = x
        · simp [hx]
        · have : ¬ x = p := fun h => hx h.symm
          simp [hx, this]
      · simp only [List.filter_cons, ne_eq, hpa, not_false_eq_true, hpb, and_self,
          decide_True, if_true, lookupNode, ih]
        by_cases hx : p = x
        · subst hx
          simp [hpa, hpb]
        · simp [hx]

/-- Renaming a file into a writable directory, to a path that is not a
directory: the call succeeds, the file is found at the new path with its
content and no longer at the old one, and nothing else changes. -/
theorem rename_file_spec (old new : Str) (qo par : Path) (s : Str) (c : Exif) (fs : FS)
    (hro : resolve old = some qo) (hrn : resolve new = some (par ++ [s]))
    (hsrc : fs.walk qo = Sys.ok (Node.file c))
    (hpar : fs.walk par = Sys.ok Node.dir)
    (hne : qo ≠ par ++ [s])
    (htgt : fs.look (par ++ [s]) ≠ some Node.dir)
    (hw1 : qo.dropLast ∉ fs.readOnly) (hw2 : par ∉ fs.readOnly) :
    ∃ fs1, fs.rename old new = Sys.ok fs1 ∧
      (∀ x, fs1.look x =
        if x = par ++ [s] then some (Node.file c)
        else if x = qo then none else fs.look x) ∧
      fs1.readOnly = fs.readOnly := by
  have hq0 : qo ≠ [] := by
    rintro rfl
    rw [walk_nil] at hsrc
    cases hsrc
  have hq1 : qo ≠ [[]] := by
    rintro rfl
    simp [FS.walk, FS.walkFrom, FS.look] at hsrc
  have hn1 : par ++ [s] ≠ [[]] := by
    intro h
    apply htgt
    rw [h]
    simp [FS.look]
  have hn0 : par ++ [s] ≠ [] := by simp
  have hdl : (par ++ [s]).dropLast = par := by simp
  refine ⟨{ fs with nodes := (par ++ [s], Node.file c) ::
      fs.nodes.filter (fun e => decide (e.1 ≠ qo ∧ e.1 ≠ par ++ [s])) }, ?_, ?_, rfl⟩
  · unfold FS.rename
    simp only [hro, hrn, hsrc, hdl, hpar, hq1, hn1, or_self, if_false, hw1, hw2, hne]
  · intro x
    unfold FS.look
    by_cases hx : x = [] ∨ x = [[]]
    · have h1 : x ≠ par ++ [s] := by
        rintro rfl
        rcases hx with hx | hx
        · exact hn0 hx
        · exact hn1 hx
      have h2 : x ≠ qo := by
        rintro rfl
        rcases hx with hx | hx
        · exact hq0 hx
        · exact hq1 hx
      simp [hx, h1, h2]
    · simp only [hx, if_false, lookupNode, lookupNode_filter]
      by_cases h1 : x = par ++ [s]
      · simp [h1]
      · have h1' : ¬ par ++ [s] = x := fun h => h1 h.symm
        by_cases h2 : x = qo
        · subst h2
          simp [h1, h1']
        · simp [h1, h1', h2]


/-! ## What lines 179-182 and `move` do under a well-behaved base directory -/


theorem walk_one (fs : FS) (R : Str) (h : fs.look [R] = some Node.dir) :
    fs.walk [R] = Sys.ok Node.dir := by
  have := walk_dir_snoc fs [] R (walk_nil fs)
  simpa [h] using this

theorem decChars_no_slash (s : Str) (h : ∀ c ∈ s, c ∈ decChars) : '/' ∉ s := by
  intro hs
  exact absurd (h _ hs) (by decide)

theorem resolve_two (R a : Str) (hR : R ≠ [] ∧ '/' ∉ R) (ha : a ≠ [] ∧ '/' ∉ a) :
    resolve (R ++ slash ++ a) = some [R, a] := by
  have := resolve_Join [a] R (by
    intro c hc
    simp only [List.mem_cons, List.mem_singleton, List.not_mem_nil, or_false] at hc
    rcases hc with rfl | rfl
    · exact hR
    · exact ha)
  simpa [Join] using this

theorem Split_two (R a : Str) (hR : '/' ∉ R) (ha : '/' ∉ a) :
    Split (R ++ slash ++ a) = [R, a] := by
  have := Split_Join [R, a] (by simp) (by
    intro c hc
    simp only [List.mem_cons, List.mem_singleton, List.not_mem_nil, or_false] at hc
    rcases hc with rfl | rfl
    · exact hR
    · exact ha)
  simpa [Join] using this

/-- Lines 179-182 for a destination with one level below the base. -/
theorem ready_marker (R mk : Str) (fs : FS) (t : List Call)
    (hR : R ≠ [] ∧ '/' ∉ R) (hmk : mk ≠ [] ∧ '/' ∉ mk)
    (hc : Contains (R ++ slash ++ mk) unknownDates = true ∨
      Contains (R ++ slash ++ mk) errorFiles = true)
    (hRdir : fs.look [R] = some Node.dir)
    (hfree : ∀ c, fs.look [R, mk] ≠ some (Node.file c))
    (hro : [R] ∉ fs.readOnly) :
    ∃ fs2 t2, buildIfMissing (R ++ slash ++ mk) ⟨fs, t⟩ = Result.ok () ⟨fs2, t2⟩ ∧
      fs2.walk [R, mk] = Sys.ok Node.dir ∧
      (∀ x, fs2.look x = if x = [R, mk] then some Node.dir else fs.look x) ∧
      fs2.readOnly = fs.readOnly := by
  have hres := resolve_two R mk hR hmk
  have hwR := walk_one fs R hRdir
  have hst : fs.stat (R ++ slash ++ mk) = fs.walk [R, mk] := stat_resolved _ _ _ hres
  have hw2 : fs.walk [R, mk] =
      match fs.look [R, mk] with
      | some n => Sys.ok n
      | none => Sys.err Errno.ENOENT := walk_dir_snoc fs [R] mk hwR
  unfold buildIfMissing
  simp only [World.stat]
  by_cases hne : isNotExist (fs.stat (R ++ slash ++ mk)) = true
  · rw [if_pos hne, buildPath_marker _ _ hc]
    exact ensureDir_spec _ [R] mk fs _ hres hwR hfree hro
  · rw [if_neg hne]
    rw [hst] at hne
    cases hk : fs.look [R, mk] with
    | none =>
      rw [hk] at hw2
      rw [hw2] at hne
      exact absurd rfl hne
    | some n =>
      cases n with
      | file c => exact absurd hk (hfree c)
      | dir =>
        rw [hk] at hw2
        refine ⟨fs, _, rfl, hw2, ?_, rfl⟩
        intro x
        by_cases hx : x = [R, mk]
        · subst hx
          simpa using hk
        · simp [hx]


theorem not_contains_dated (R Y M D mk : Str) (hmk : mk ≠ [])
    (hmc : ∀ c ∈ mk, c ∉ dirChars) (hR : ¬ mk <:+: R)
    (hY : ∀ c ∈ Y, c ∈ decChars) (hM : ∀ c ∈ M, c ∈ decChars) (hD : ∀ c ∈ D, c ∈ decChars) :
    Contains (R ++ slash ++ Y ++ slash ++ M ++ slash ++ D) mk = false := by
  rw [Bool.eq_false_iff]
  intro h
  rw [Contains_iff] at h
  have hassoc : R ++ slash ++ Y ++ slash ++ M ++ slash ++ D =
      R ++ (slash ++ Y ++ slash ++ M ++ slash ++ D) := by
    simp [List.append_assoc]
  rw [hassoc] at h
  have hdec : ∀ c, c ∈ decChars → c ∈ dirChars := by decide
  apply hR
  apply infix_of_append mk R _ hmk _ h
  intro c hc hcb
  apply hmc c hc
  simp only [List.mem_append] at hcb
  rcases hcb with ((((hcb | hcb) | hcb) | hcb) | hcb) | hcb
  · have : c = '/' := by simpa [slash] using hcb
    subst this; decide
  · exact hdec c (hY c hcb)
  · have : c = '/' := by simpa [slash] using hcb
    subst this; decide
  · exact hdec c (hM c hcb)
  · have : c = '/' := by simpa [slash] using hcb
    subst this; decide
  · exact hdec c (hD c hcb)

/-- Lines 179-182 for a dated destination base/y/m/d: under a writable base
directory whose name contains neither folder name, with none of the three
levels occupied by a file, the three levels exist afterwards and nothing
else changes. -/
theorem ready_date (R Y M D : Str) (fs : FS) (t : List Call)
    (hR : R ≠ [] ∧ '/' ∉ R)
    (hmark : ¬ unknownDates <:+: R ∧ ¬ errorFiles <:+: R)
    (hY : Y ≠ [] ∧ ∀ c ∈ Y, c ∈ decChars)
    (hM : M ≠ [] ∧ ∀ c ∈ M, c ∈ decChars)
    (hD : D ≠ [] ∧ ∀ c ∈ D, c ∈ decChars)
    (hRdir : fs.look [R] = some Node.dir)
    (hfree : ∀ q ∈ [[R, Y], [R, Y, M], [R, Y, M, D]], ∀ c, fs.look q ≠ some (Node.file c))
    (hro : ∀ q ∈ fs.readOnly, ¬ [R] <+: q) :
    ∃ fs2 t2, buildIfMissing (R ++ slash ++ Y ++ slash ++ M ++ slash ++ D) ⟨fs, t⟩ =
        Result.ok () ⟨fs2, t2⟩ ∧
      fs2.walk [R, Y, M, D] = Sys.ok Node.dir ∧
      (∀ x, fs2.look x =
        if x ∈ [[R, Y], [R, Y, M], [R, Y, M, D]] then some Node.dir else fs.look x) ∧
      fs2.readOnly = fs.readOnly := by
  have hYs := decChars_no_slash Y hY.2
  have hMs := decChars_no_slash M hM.2
  have hDs := decChars_no_slash D hD.2
  have hall : ∀ c ∈ [R, Y, M, D], c ≠ [] ∧ '/' ∉ c := by
    intro c hc
    simp only [List.mem_cons, List.mem_singleton, List.not_mem_nil, or_false] at hc
    rcases hc with rfl | rfl | rfl | rfl
    · exact hR
    · exact ⟨hY.1, hYs⟩
    · exact ⟨hM.1, hMs⟩
    · exact ⟨hD.1, hDs⟩
  have hJ : R ++ slash ++ Y ++ slash ++ M ++ slash ++ D = Join [R, Y, M, D] slash := by
    simp [Join, List.append_assoc]
  have hres4 : resolve (Join [R, Y, M, D] slash) = some ([R, Y, M] ++ [D]) :=
    resolve_Join [Y, M, D] R hall
  have hres3 : resolve (Join [R, Y, M] slash) = some ([R, Y] ++ [M]) :=
    resolve_Join [Y, M] R (fun c hc => hall c (by
      simp only [List.mem_cons, List.mem_singleton, List.not_mem_nil, or_false] at hc ⊢
      tauto))
  have hres2 : resolve (Join [R, Y] slash) = some ([R] ++ [Y]) :=
    resolve_Join [Y] R (fun c hc => hall c (by
      simp only [List.mem_cons, List.mem_singleton, List.not_mem_nil, or_false] at hc ⊢
      tauto))
  have hsplit : Split (Join [R, Y, M, D] slash) = [R, Y, M, D] :=
    Split_Join _ (by simp) (fun c hc => (hall c hc).2)
  have hcu := not_contains_dated R Y M D unknownDates (by decide) (by decide) hmark.1
    hY.2 hM.2 hD.2
  have hce := not_contains_dated R Y M D errorFiles (by decide) (by decide) hmark.2
    hY.2 hM.2 hD.2
  have hwR := walk_one fs R hRdir
  have hro1 : [R] ∉ fs.readOnly := fun h => hro _ h (List.prefix_refl _)
  have hro2 : [R, Y] ∉ fs.readOnly := fun h => hro _ h ⟨[Y], rfl⟩
  have hro3 : [R, Y, M] ∉ fs.readOnly := fun h => hro _ h ⟨[Y, M], rfl⟩
  have hf2 := hfree [R, Y] (by simp)
  have hf3 := hfree [R, Y, M] (by simp)
  have hf4 := hfree [R, Y, M, D] (by simp)
  rw [hJ] at hcu hce ⊢
  unfold buildIfMissing
  simp only [World.stat]
  by_cases hne : isNotExist (fs.stat (Join [R, Y, M, D] slash)) = true
  · rw [if_pos hne, buildPath_date _ _ hcu hce, hsplit]
    have hs2 : sliceTo [R, Y, M, D] 2 = some [R, Y] := by simp [sliceTo]
    have hs3 : sliceTo [R, Y, M, D] 3 = some [R, Y, M] := by simp [sliceTo]
    simp only [hs2, hs3]
    obtain ⟨fa, ta, ea, wa, la, ra⟩ :=
      ensureDir_spec _ [R] Y fs (t ++ [Call.stat (Join [R, Y, M, D] slash)]) hres2 hwR hf2 hro1
    rw [ea, bind_ok]
    have hfa : ∀ c, fa.look ([R, Y] ++ [M]) ≠ some (Node.file c) := by
      intro c
      rw [la]
      simpa using hf3 c
    obtain ⟨fb, tb, eb, wb, lb, rb⟩ :=
      ensureDir_spec _ [R, Y] M fa ta hres3 wa hfa (by rw [ra]; exact hro2)
    rw [eb, bind_ok]
    have hfb : ∀ c, fb.look ([R, Y, M] ++ [D]) ≠ some (Node.file c) := by
      intro c
      rw [lb, la]
      simpa using hf4 c
    obtain ⟨fc, tc, ec, wc, lc, rc⟩ :=
      ensureDir_spec _ [R, Y, M] D fb tb hres4 wb hfb (by rw [rb, ra]; exact hro3)
    refine ⟨fc, tc, ec, wc, ?_, by rw [rc, rb, ra]⟩
    intro x
    rw [lc, lb, la]
    by_cases h4 : x = [R, Y, M, D]
    · simp [h4]
    · by_cases h3 : x = [R, Y, M]
      · simp [h3]
      · by_cases h2 : x = [R, Y]
        · simp [h2]
        · simp [h2, h3, h4]
  · rw [if_neg hne]
    rw [stat_resolved _ _ _ hres4] at hne
    have w2 : fs.walk [R, Y] = _ := walk_dir_snoc fs [R] Y hwR
    have w3 : fs.walk [R, Y, M] = _ := walk_snoc fs [R, Y] M
    have w4 : fs.walk [R, Y, M, D] = _ := walk_snoc fs [R, Y, M] D
    have k2 : fs.look [R, Y] = some Node.dir := by
      cases hk : fs.look [R, Y] with
      | none =>
        exfalso
        apply hne
        show isNotExist (fs.walk [R, Y, M, D]) = true
        rw [w4, w3, w2]
        simp [hk, isNotExist]
      | some n =>
        cases n with
        | file c => exact absurd hk (hf2 c)
        | dir => rfl
    have k3 : fs.look [R, Y, M] = some Node.dir := by
      cases hk : fs.look [R, Y, M] with
      | none =>
        exfalso
        apply hne
        show isNotExist (fs.walk [R, Y, M, D]) = true
        rw [w4, w3, w2]
        simp [hk, k2, isNotExist]
      | some n =>
        cases n with
        | file c => exact absurd hk (hf3 c)
        | dir => rfl
    have k4 : fs.look [R, Y, M, D] = some Node.dir := by
      cases hk : fs.look [R, Y, M, D] with
      | none =>
        exfalso
        apply hne
        show isNotExist (fs.walk [R, Y, M, D]) = true
        rw [w4, w3, w2]
        simp [hk, k2, k3, isNotExist]
      | some n =>
        cases n with
        | file c => exact absurd hk (hf4 c)
        | dir => rfl
    refine ⟨fs, _, rfl, ?_, ?_, rfl⟩
    · rw [w4, w3, w2]
      simp [k2, k3, k4]
    · intro x
      by_cases h4 : x = [R, Y, M, D]
      · simp [h4, k4]
      · by_cases h3 : x = [R, Y, M]
        · simp [h3, k3]
        · by_cases h2 : x = [R, Y]
          · simp [h2, k2]
          · simp [h2, h3, h4]


theorem moveDest_of_split (p : Picture) (base : Str) (rest : List Str)
    (h : Split p.path = base :: rest) :
    moveDest p =
      some (if p.date.1 = 0 then base ++ slash ++ unknownDates
        else if p.date.1 = -1 then base ++ slash ++ errorFiles
        else base ++ slash ++ fmtInt p.date.1 ++ slash ++ fmtInt p.date.2.1 ++ slash ++
          fmtInt p.date.2.2) := by
  unfold moveDest
  rw [h]
  simp only [List.getElem?_cons_zero]
  split <;> [rfl; (split <;> rfl)]

theorem move_finish (R n nb : Str) (date : Date) (c : Exif) (dpath : Path)
    (dirs : List Path) (fs : FS) (t : List Call)
    (hR : R ≠ [] ∧ '/' ∉ R) (hn : n ≠ [] ∧ '/' ∉ n)
    (hdest : moveDest ⟨R ++ slash ++ n, date⟩ = some nb)
    (hready : ∃ fs2 t2, buildIfMissing nb ⟨fs, t⟩ = Result.ok () ⟨fs2, t2⟩ ∧
      fs2.walk dpath = Sys.ok Node.dir ∧
      (∀ x, fs2.look x = if x ∈ dirs then some Node.dir else fs.look x) ∧
      fs2.readOnly = fs.readOnly)
    (hres : resolve (nb ++ slash ++ n) = some (dpath ++ [n]))
    (hRdir : fs.look [R] = some Node.dir)
    (hfile : fs.look [R, n] = some (Node.file c))
    (hd1 : [R] ∉ dirs) (hd2 : [R, n] ∉ dirs) (hd3 : dpath ++ [n] ∉ dirs)
    (hd4 : [R, n] ≠ dpath ++ [n])
    (htgt : fs.look (dpath ++ [n]) ≠ some Node.dir)
    (hro1 : [R] ∉ fs.readOnly) (hro2 : dpath ∉ fs.readOnly) :
    ∃ fs1 t1, move ⟨R ++ slash ++ n, date⟩ ⟨fs, t⟩ = Result.ok () ⟨fs1, t1⟩ ∧
      (∀ x, fs1.look x =
        if x = dpath ++ [n] then some (Node.file c)
        else if x = [R, n] then none
        else if x ∈ dirs then some Node.dir else fs.look x) ∧
      fs1.readOnly = fs.readOnly := by
  obtain ⟨fs2, t2, e2, w2, l2, r2⟩ := hready
  have hsplit := Split_two R n hR.2 hn.2
  have hold := resolve_two R n hR hn
  have hwR : fs2.walk [R] = Sys.ok Node.dir := by
    apply walk_one
    rw [l2, if_neg hd1, hRdir]
  have hsrc : fs2.walk [R, n] = Sys.ok (Node.file c) := by
    have := walk_dir_snoc fs2 [R] n hwR
    have hl : fs2.look [R, n] = some (Node.file c) := by
      rw [l2, if_neg hd2, hfile]
    simpa [hl] using this
  have htgt2 : fs2.look (dpath ++ [n]) ≠ some Node.dir := by
    rw [l2, if_neg hd3]
    exact htgt
  obtain ⟨fs1, e1, l1, r1⟩ := rename_file_spec (R ++ slash ++ n) (nb ++ slash ++ n) [R, n]
    dpath n c fs2 hold hres hsrc w2 hd4 htgt2 (by rw [r2]; simpa using hro1)
    (by rw [r2]; exact hro2)
  refine ⟨fs1, t2 ++ [Call.rename (R ++ slash ++ n) (nb ++ slash ++ n) none], ?_, ?_, ?_⟩
  · unfold move
    have hidx : ([R, n] : List Str)[1]? = some n := rfl
    simp only [hdest, e2, bind_ok, hsplit, hidx, World.rename, e1]
  · intro x
    rw [l1, l2]
  · rw [r1, r2]

/-- What `move` does to a picture directly under the directory `R`: when
`R` is writable and its name contains neither folder name, no directory
level of the destination is occupied by a file and the target path is not a
directory, the call returns, the file is at the target with its content and
no longer at its old path, the destination levels are directories, and
every other path is as before. -/
theorem move_spec (R n : Str) (date : Date) (c : Exif) (fs : FS) (t : List Call)
    (hR : R ≠ [] ∧ '/' ∉ R)
    (hmark : ¬ unknownDates <:+: R ∧ ¬ errorFiles <:+: R)
    (hn : n ≠ [] ∧ '/' ∉ n)
    (hRdir : fs.look [R] = some Node.dir)
    (hfile : fs.look [R, n] = some (Node.file c))
    (hfree : ∀ q ∈ destDirs R date, ∀ c2, fs.look q ≠ some (Node.file c2))
    (htgt : fs.look (destPath R date ++ [n]) ≠ some Node.dir)
    (hro : ∀ q ∈ fs.readOnly, ¬ [R] <+: q) :
    ∃ fs1 t1, move ⟨R ++ slash ++ n, date⟩ ⟨fs, t⟩ = Result.ok () ⟨fs1, t1⟩ ∧
      (∀ x, fs1.look x =
        if x = destPath R date ++ [n] then some (Node.file c)
        else if x = [R, n] then none
        else if x ∈ destDirs R date then some Node.dir else fs.look x) ∧
      fs1.readOnly = fs.readOnly := by
  have hsplit := Split_two R n hR.2 hn.2
  have hro1 : [R] ∉ fs.readOnly := fun h => hro _ h (List.prefix_refl _)
  have hsrcdir : [R, n] ∉ destDirs R date := by
    intro h
    exact hfree _ h c hfile
  obtain ⟨y, m, d⟩ := date
  by_cases hy0 : y = 0
  · -- unknown_dates
    subst hy0
    have hmk : unknownDates ≠ [] ∧ '/' ∉ unknownDates := by decide
    have hdp : destPath R (0, m, d) = [R, unknownDates] := by simp [destPath]
    have hdd : destDirs R (0, m, d) = [[R, unknownDates]] := by simp [destDirs]
    rw [hdp] at htgt ⊢
    rw [hdd] at hfree hsrcdir ⊢
    have hdest : moveDest ⟨R ++ slash ++ n, (0, m, d)⟩ = some (R ++ slash ++ unknownDates) := by
      rw [moveDest_of_split _ R [n] hsplit]
      simp
    have hready := ready_marker R unknownDates fs t hR hmk
      (Or.inl ((Contains_iff _ _).2 ⟨R ++ slash, [], by simp⟩)) hRdir
      (hfree _ (by simp)) hro1
    have hres : resolve (R ++ slash ++ unknownDates ++ slash ++ n) =
        some ([R, unknownDates] ++ [n]) := by
      have := resolve_Join [unknownDates, n] R (by
        intro c hc
        simp only [List.mem_cons, List.mem_singleton, List.not_mem_nil, or_false] at hc
        rcases hc with rfl | rfl | rfl
        · exact hR
        · exact hmk
        · exact hn)
      simpa [Join, List.append_assoc] using this
    have hready2 : ∃ fs2 t2, buildIfMissing (R ++ slash ++ unknownDates) ⟨fs, t⟩ =
        Result.ok () ⟨fs2, t2⟩ ∧ fs2.walk [R, unknownDates] = Sys.ok Node.dir ∧
        (∀ x, fs2.look x = if x ∈ [[R, unknownDates]] then some Node.dir else fs.look x) ∧
        fs2.readOnly = fs.readOnly := by
      obtain ⟨fs2, t2, h1, h2, h3, h4⟩ := hready
      exact ⟨fs2, t2, h1, h2, fun x => by simpa using h3 x, h4⟩
    exact move_finish R n _ (0, m, d) c [R, unknownDates] [[R, unknownDates]] fs t hR hn hdest
      hready2 hres hRdir hfile (by simp) hsrcdir (by simp) (by simp) htgt hro1
      (fun h => hro _ h ⟨[unknownDates], rfl⟩)
  · by_cases hy1 : y = -1
    · subst hy1
      have hmk : errorFiles ≠ [] ∧ '/' ∉ errorFiles := by decide
      have hdp : destPath R (-1, m, d) = [R, errorFiles] := by simp [destPath]
      have hdd : destDirs R (-1, m, d) = [[R, errorFiles]] := by simp [destDirs]
      rw [hdp] at htgt ⊢
      rw [hdd] at hfree hsrcdir ⊢
      have hdest : moveDest ⟨R ++ slash ++ n, (-1, m, d)⟩ = some (R ++ slash ++ errorFiles) := by
        rw [moveDest_of_split _ R [n] hsplit]
        simp
      have hready := ready_marker R errorFiles fs t hR hmk
        (Or.inr ((Contains_iff _ _).2 ⟨R ++ slash, [], by simp⟩)) hRdir
        (hfree _ (by simp)) hro1
      have hres : resolve (R ++ slash ++ errorFiles ++ slash ++ n) =
          some ([R, errorFiles] ++ [n]) := by
        have := resolve_Join [errorFiles, n] R (by
          intro c hc
          simp only [List.mem_cons, List.mem_singleton, List.not_mem_nil, or_false] at hc
          rcases hc with rfl | rfl | rfl
          · exact hR
          · exact hmk
          · exact hn)
        simpa [Join, List.append_assoc] using this
      have hready2 : ∃ fs2 t2, buildIfMissing (R ++ slash ++ errorFiles) ⟨fs, t⟩ =
          Result.ok () ⟨fs2, t2⟩ ∧ fs2.walk [R, errorFiles] = Sys.ok Node.dir ∧
          (∀ x, fs2.look x = if x ∈ [[R, errorFiles]] then some Node.dir else fs.look x) ∧
          fs2.readOnly = fs.readOnly := by
        obtain ⟨fs2, t2, h1, h2, h3, h4⟩ := hready
        exact ⟨fs2, t2, h1, h2, fun x => by simpa using h3 x, h4⟩
      exact move_finish R n _ (-1, m, d) c [R, errorFiles] [[R, errorFiles]] fs t hR hn hdest
        hready2 hres hRdir hfile (by simp) hsrcdir (by simp) (by simp) htgt hro1
        (fun h => hro _ h ⟨[errorFiles], rfl⟩)
    · have hdp : destPath R (y, m, d) = [R, fmtInt y, fmtInt m, fmtInt d] := by
        simp [destPath, hy0, hy1]
      have hdd : destDirs R (y, m, d) = [[R, fmtInt y], [R, fmtInt y, fmtInt m],
          [R, fmtInt y, fmtInt m, fmtInt d]] := by
        simp [destDirs, hy0, hy1]
      rw [hdp] at htgt ⊢
      rw [hdd] at hfree hsrcdir ⊢
      have hdest : moveDest ⟨R ++ slash ++ n, (y, m, d)⟩ =
          some (R ++ slash ++ fmtInt y ++ slash ++ fmtInt m ++ slash ++ fmtInt d) := by
        rw [moveDest_of_split _ R [n] hsplit]
        simp [hy0, hy1]
      have hready := ready_date R (fmtInt y) (fmtInt m) (fmtInt d) fs t hR hmark
        ⟨fmtInt_ne_nil y, fmtInt_mem y⟩ ⟨fmtInt_ne_nil m, fmtInt_mem m⟩
        ⟨fmtInt_ne_nil d, fmtInt_mem d⟩ hRdir hfree hro
      have hres : resolve (R ++ slash ++ fmtInt y ++ slash ++ fmtInt m ++ slash ++ fmtInt d ++
          slash ++ n) = some ([R, fmtInt y, fmtInt m, fmtInt d] ++ [n]) := by
        have := resolve_Join [fmtInt y, fmtInt m, fmtInt d, n] R (by
          intro c hc
          simp only [List.mem_cons, List.mem_singleton, List.not_mem_nil, or_false] at hc
          rcases hc with rfl | rfl | rfl | rfl | rfl
          · exact hR
          · exact ⟨fmtInt_ne_nil y, fmtInt_no_slash y⟩
          · exact ⟨fmtInt_ne_nil m, fmtInt_no_slash m⟩
          · exact ⟨fmtInt_ne_nil d, fmtInt_no_slash d⟩
          · exact hn)
        simpa [Join, List.append_assoc] using this
      exact move_finish R n _ (y, m, d) c [R, fmtInt y, fmtInt m, fmtInt d] _ fs t hR hn hdest
        hready hres hRdir hfile (by simp) hsrcdir (by simp) (by simp) htgt hro1
        (fun h => hro _ h ⟨[fmtInt y, fmtInt m, fmtInt d], rfl⟩)


theorem fileAt_false (fs : FS) (q : Path) (h : fs.fileAt q = false) :
    ∀ c, fs.look q ≠ some (Node.file c) := by
  intro c hc
  simp [FS.fileAt, hc] at h

theorem fmtInt_ne_marker (i : Int) :
    fmtInt i ≠ unknownDates ∧ fmtInt i ≠ errorFiles ∧ fmtInt i ≠ othersDir := by
  refine ⟨?_, ?_, ?_⟩
  · intro h
    have := fmtInt_mem i 'u' (by rw [h]; decide)
    exact absurd this (by decide)
  · intro h
    have := fmtInt_mem i 'e' (by rw [h]; decide)
    exact absurd this (by decide)
  · intro h
    have := fmtInt_mem i 'o' (by rw [h]; decide)
    exact absurd this (by decide)

/-- The target of one picture is never a directory level of another. -/
theorem target_not_level (R n : Str) (date date2 : Date) :
    destPath R date ++ [n] ∉ destDirs R date2 := by
  obtain ⟨y, m, d⟩ := date
  obtain ⟨y2, m2, d2⟩ := date2
  have h1 := fmtInt_ne_marker y2
  have e1 : unknownDates ≠ fmtInt y2 := fun h => h1.1 h.symm
  have e2 : errorFiles ≠ fmtInt y2 := fun h => h1.2.1 h.symm
  unfold destPath destDirs
  by_cases a0 : y = 0 <;> by_cases a1 : y = -1 <;> by_cases b0 : y2 = 0 <;>
    by_cases b1 : y2 = -1 <;> simp [a0, a1, b0, b1, e1, e2]

theorem level_length (R : Str) (date : Date) (q : Path) (h : q ∈ destDirs R date) :
    2 ≤ q.length ∧ q.length ≤ 4 := by
  obtain ⟨y, m, d⟩ := date
  unfold destDirs at h
  by_cases a0 : y = 0 <;> by_cases a1 : y = -1 <;> simp [a0, a1] at h
  all_goals first
    | (subst h; simp)
    | (rcases h with rfl | rfl | rfl <;> simp)

theorem target_length (R n : Str) (date : Date) :
    3 ≤ (destPath R date ++ [n]).length := by
  obtain ⟨y, m, d⟩ := date
  unfold destPath
  by_cases a0 : y = 0 <;> by_cases a1 : y = -1 <;> simp [a0, a1]

theorem target_last (R n n2 : Str) (date date2 : Date)
    (h : destPath R date ++ [n] = destPath R date2 ++ [n2]) : n = n2 := by
  have := congrArg List.getLast? h
  simpa using this


/-- The first loop of `organize` on pictures that lie directly in `R`. -/
theorem movePics_spec (R : Str) (hR : R ≠ [] ∧ '/' ∉ R)
    (hmark : ¬ unknownDates <:+: R ∧ ¬ errorFiles <:+: R) :
    ∀ (L : List (Str × Exif)) (fs : FS) (t : List Call),
      (∀ e ∈ L, e.1 ≠ [] ∧ '/' ∉ e.1) →
      (L.map Prod.fst).Nodup →
      fs.look [R] = some Node.dir →
      (∀ e ∈ L, fs.look [R, e.1] = some (Node.file e.2)) →
      (∀ e ∈ L, ∀ q ∈ levelsOf R e, ∀ c2, fs.look q ≠ some (Node.file c2)) →
      (∀ e ∈ L, fs.look (targetOf R e) ≠ some Node.dir) →
      (∀ q ∈ fs.readOnly, ¬ [R] <+: q) →
      ∃ fs1 t1, movePics (L.map (picOf R)) ⟨fs, t⟩ = Result.ok () ⟨fs1, t1⟩ ∧
        (∀ e ∈ L, fs1.look (targetOf R e) = some (Node.file e.2) ∧ fs1.look [R, e.1] = none) ∧
        (∀ e ∈ L, ∀ q ∈ levelsOf R e, fs1.look q = some Node.dir) ∧
        (∀ x, (∀ e ∈ L, x ≠ targetOf R e ∧ x ≠ [R, e.1] ∧ x ∉ levelsOf R e) →
          fs1.look x = fs.look x) ∧
        fs1.readOnly = fs.readOnly := by
  intro L
  induction L with
  | nil =>
    intro fs t _ _ _ _ _ _ _
    exact ⟨fs, t, rfl, by simp, by simp, fun x _ => rfl, rfl⟩
  | cons e L ih =>
    intro fs t hval hnd hRdir hsrc hfree htgt hro
    have hnd2 : e.1 ∉ L.map Prod.fst ∧ (L.map Prod.fst).Nodup := List.nodup_cons.1 hnd
    have tnl : ∀ a b : Str × Exif, targetOf R a ∉ levelsOf R b :=
      fun a b => target_not_level R a.1 _ _
    -- a source is never a directory level
    have P1 : ∀ a ∈ e :: L, ∀ b ∈ e :: L, [R, a.1] ∉ levelsOf R b := by
      intro a ha b hb hmem
      exact hfree b hb _ hmem a.2 (hsrc a ha)
    have hlenR : ∀ b : Str × Exif, [R] ∉ levelsOf R b := by
      intro b hmem
      have := (level_length R _ _ hmem).1
      simp at this
    obtain ⟨fs1, t1, e1, l1, r1⟩ := move_spec R e.1 (dateOf (Node.file e.2)) e.2 fs t hR hmark
      (hval e (by simp)) hRdir (hsrc e (by simp)) (hfree e (by simp)) (htgt e (by simp)) hro
    have l1' : ∀ x, fs1.look x =
        if x = targetOf R e then some (Node.file e.2)
        else if x = [R, e.1] then none
        else if x ∈ levelsOf R e then some Node.dir else fs.look x := l1
    have hne_src : ∀ a ∈ L, a.1 ≠ e.1 := by
      intro a ha h
      apply hnd2.1
      rw [← h]
      exact List.mem_map_of_mem _ ha
    have src_ne_tgt : ∀ a b : Str × Exif, [R, a.1] ≠ targetOf R b := by
      intro a b h
      have := target_length R b.1 (dateOf (Node.file b.2))
      have h2 := congrArg List.length h
      simp only [targetOf] at h2
      simp only [List.length_cons, List.length_nil] at h2
      omega
    -- hypotheses of the induction hypothesis in the new state
    have hRdir1 : fs1.look [R] = some Node.dir := by
      rw [l1', if_neg, if_neg, if_neg (hlenR e), hRdir]
      · simp
      · intro h
        have := target_length R e.1 (dateOf (Node.file e.2))
        have h2 := congrArg List.length h
        simp only [targetOf] at h2
        simp only [List.length_cons, List.length_nil] at h2
        omega
    have hsrc1 : ∀ a ∈ L, fs1.look [R, a.1] = some (Node.file a.2) := by
      intro a ha
      rw [l1', if_neg (src_ne_tgt a e), if_neg, if_neg (P1 a (by simp [ha]) e (by simp))]
      · exact hsrc a (by simp [ha])
      · simpa using hne_src a ha
    have hfree1 : ∀ a ∈ L, ∀ q ∈ levelsOf R a, ∀ c2, fs1.look q ≠ some (Node.file c2) := by
      intro a ha q hq c2
      rw [l1']
      have hq1 : q ≠ targetOf R e := by
        rintro rfl
        exact tnl e _ hq
      rw [if_neg hq1]
      by_cases hq2 : q = [R, e.1]
      · simp [hq2]
      · rw [if_neg hq2]
        by_cases hq3 : q ∈ levelsOf R e
        · simp [hq3]
        · rw [if_neg hq3]
          exact hfree a (by simp [ha]) q hq c2
    have htgt1 : ∀ a ∈ L, fs1.look (targetOf R a) ≠ some Node.dir := by
      intro a ha
      rw [l1']
      by_cases hq1 : targetOf R a = targetOf R e
      · simp [hq1]
      · rw [if_neg hq1, if_neg (fun h => src_ne_tgt e a h.symm),
          if_neg (tnl a e)]
        exact htgt a (by simp [ha])
    obtain ⟨fs2, t2, e2, a2, b2, c2, r2⟩ := ih fs1 t1
      (fun a ha => hval a (by simp [ha])) hnd2.2 hRdir1 hsrc1 hfree1 htgt1
      (by rw [r1]; exact hro)
    refine ⟨fs2, t2, ?_, ?_, ?_, ?_, by rw [r2, r1]⟩
    · simp only [List.map_cons, movePics]
      have : move (picOf R e) ⟨fs, t⟩ = Result.ok () ⟨fs1, t1⟩ := e1
      rw [this, bind_ok, e2]
    · intro a ha
      rcases List.mem_cons.1 ha with rfl | ha
      · constructor
        · rw [c2, l1', if_pos rfl]
          intro b hb
          refine ⟨?_, fun h => src_ne_tgt b a h.symm, tnl a b⟩
          intro h
          exact hne_src b hb (target_last R _ _ _ _ h).symm
        · rw [c2, l1', if_neg (src_ne_tgt a a), if_pos rfl]
          intro b hb
          refine ⟨src_ne_tgt a b, ?_, P1 a (by simp) b (by simp [hb])⟩
          intro h
          have : a.1 = b.1 := by simpa using h
          exact hne_src b hb this.symm
      · exact a2 a ha
    · intro a ha q hq
      rcases List.mem_cons.1 ha with rfl | ha
      · by_cases hex : ∃ b ∈ L, q ∈ levelsOf R b
        · obtain ⟨b, hb, hqb⟩ := hex
          exact b2 b hb q hqb
        · have hex2 : ∀ b ∈ L, q ∉ levelsOf R b := fun b hb h => hex ⟨b, hb, h⟩
          rw [c2, l1', if_neg, if_neg, if_pos hq]
          · rintro rfl
            exact P1 a (by simp) a (by simp) hq
          · rintro rfl
            exact tnl a _ hq
          · intro b hb
            refine ⟨?_, ?_, hex2 b hb⟩
            · rintro rfl
              exact tnl b _ hq
            · rintro rfl
              exact P1 b (by simp [hb]) a (by simp) hq
      · exact b2 a ha q hq
    · intro x hx
      have hxe := hx e (by simp)
      rw [c2 x (fun b hb => hx b (by simp [hb])), l1', if_neg hxe.1, if_neg hxe.2.1,
        if_neg hxe.2.2]


theorem openCount_snoc_open (t : List Call) (p : Str) :
    openCount (t ++ [Call.openFile p none]) = openCount t + 1 := by
  induction t with
  | nil => rfl
  | cons c t ih =>
    cases c with
    | stat q => simpa [openCount] using ih
    | mkdir q e => simpa [openCount] using ih
    | rename a b e => simpa [openCount] using ih
    | openFile q e =>
      cases e with
      | none =>
        show openCount (t ++ [Call.openFile p none]) + 1 = openCount t + 1 + 1
        rw [ih]
      | some e => simpa [openCount] using ih

/-- Reading the dates of pictures that lie directly in `R`, are readable and
are few enough to be all open at once: no call fails and the filesystem is
left as it was. -/
theorem setPictureDates_spec (R : Str) (hR : R ≠ [] ∧ '/' ∉ R) :
    ∀ (L : List (Str × Exif)) (fs : FS) (t : List Call),
      (∀ e ∈ L, e.1 ≠ [] ∧ '/' ∉ e.1) →
      fs.look [R] = some Node.dir →
      (∀ e ∈ L, fs.look [R, e.1] = some (Node.file e.2)) →
      (∀ e ∈ L, [R, e.1] ∉ fs.unreadable) →
      openCount t + L.length ≤ fs.maxOpen →
      ∃ t1, setPictureDates (L.map (fun e => R ++ slash ++ e.1)) ⟨fs, t⟩ =
        Result.ok (L.map (picOf R)) ⟨fs, t1⟩ := by
  intro L
  induction L with
  | nil =>
    intro fs t _ _ _ _ _
    exact ⟨t, rfl⟩
  | cons e L ih =>
    intro fs t hval hRdir hsrc hread hopen
    have hres := resolve_two R e.1 hR (hval e (by simp))
    have hst : fs.stat (R ++ slash ++ e.1) = Sys.ok (Node.file e.2) := by
      rw [stat_resolved _ _ _ hres]
      have := walk_dir_snoc fs [R] e.1 (walk_one fs R hRdir)
      simpa [hsrc e (by simp)] using this
    have hlim : ¬ fs.maxOpen ≤ openCount t := by
      simp only [List.length_cons] at hopen
      omega
    have hop : fs.openRead (openCount t) (R ++ slash ++ e.1) = Sys.ok (Node.file e.2) := by
      unfold FS.openRead
      rw [if_neg hlim, hst]
      simp only [hres]
      rw [if_neg (hread e (by simp))]
    have hg : getDate (R ++ slash ++ e.1) ⟨fs, t⟩ =
        Result.ok (dateOf (Node.file e.2))
          ⟨fs, t ++ [Call.openFile (R ++ slash ++ e.1) none]⟩ := by
      simp only [getDate, World.openFile, hop]
    obtain ⟨t1, h1⟩ := ih fs (t ++ [Call.openFile (R ++ slash ++ e.1) none])
      (fun a ha => hval a (by simp [ha])) hRdir (fun a ha => hsrc a (by simp [ha]))
      (fun a ha => hread a (by simp [ha]))
      (by
        rw [openCount_snoc_open]
        simp only [List.length_cons] at hopen
        omega)
    refine ⟨t1, ?_⟩
    simp only [List.map_cons, setPictureDates, hg, bind_ok, h1]
    rfl

/-- The unchecked `os.Mkdir` of `organize`: whether the directory is created
or was there already, it is there afterwards. -/
theorem mkdir_either (p : Str) (par : Path) (s : Str) (w : World)
    (hr : resolve p = some (par ++ [s]))
    (hp : w.fs.walk par = Sys.ok Node.dir)
    (hl : ∀ c, w.fs.look (par ++ [s]) ≠ some (Node.file c))
    (hro : par ∉ w.fs.readOnly) :
    ∃ fs1 t1, (w.mkdir p).2 = ⟨fs1, t1⟩ ∧
      (∀ x, fs1.look x = if x = par ++ [s] then some Node.dir else w.fs.look x) ∧
      fs1.readOnly = w.fs.readOnly := by
  cases hk : w.fs.look (par ++ [s]) with
  | none =>
    have hm : w.fs.mkdir p = Sys.ok { w.fs with nodes := (par ++ [s], Node.dir) :: w.fs.nodes } := by
      simp [FS.mkdir, hr, hp, hk, hro]
    refine ⟨_, w.trace ++ [Call.mkdir p none], ?_, look_after_mkdir w.fs _ hk, rfl⟩
    simp only [World.mkdir, hm]
  | some n =>
    cases n with
    | file c => exact absurd hk (hl c)
    | dir =>
      have hm : w.fs.mkdir p = Sys.err Errno.EEXIST := by
        simp [FS.mkdir, hr, hp, hk]
      refine ⟨w.fs, w.trace ++ [Call.mkdir p (some Errno.EEXIST)], ?_, ?_, rfl⟩
      · simp only [World.mkdir, hm]
      · intro x
        by_cases hx : x = par ++ [s]
        · simp [hx, hk]
        · simp [hx]

/-- The second loop of `organize` on files that lie directly in `R`, once
R/others is a directory. -/
theorem moveOthers_spec (R : Str) (hR : R ≠ [] ∧ '/' ∉ R) :
    ∀ (L : List (Str × Exif)) (fs : FS) (t : List Call),
      (∀ e ∈ L, e.1 ≠ [] ∧ '/' ∉ e.1) →
      (L.map Prod.fst).Nodup →
      fs.look [R] = some Node.dir →
      fs.look [R, othersDir] = some Node.dir →
      (∀ e ∈ L, fs.look [R, e.1] = some (Node.file e.2)) →
      (∀ e ∈ L, fs.look [R, othersDir, e.1] ≠ some Node.dir) →
      (∀ q ∈ fs.readOnly, ¬ [R] <+: q) →
      ∃ fs1 t1, moveOthers R (L.map (fun e => R ++ slash ++ e.1)) ⟨fs, t⟩ =
          Result.ok () ⟨fs1, t1⟩ ∧
        (∀ e ∈ L, fs1.look [R, othersDir, e.1] = some (Node.file e.2) ∧
          fs1.look [R, e.1] = none) ∧
        (∀ x, (∀ e ∈ L, x ≠ [R, othersDir, e.1] ∧ x ≠ [R, e.1]) → fs1.look x = fs.look x) ∧
        fs1.readOnly = fs.readOnly := by
  intro L
  induction L with
  | nil =>
    intro fs t _ _ _ _ _ _ _
    exact ⟨fs, t, rfl, by simp, fun x _ => rfl, rfl⟩
  | cons e L ih =>
    intro fs t hval hnd hRdir hOdir hsrc htgt hro
    have hnd2 : e.1 ∉ L.map Prod.fst ∧ (L.map Prod.fst).Nodup := List.nodup_cons.1 hnd
    have hne_src : ∀ a ∈ L, a.1 ≠ e.1 := by
      intro a ha h
      apply hnd2.1
      rw [← h]
      exact List.mem_map_of_mem _ ha
    have hve := hval e (by simp)
    have hmk : othersDir ≠ [] ∧ '/' ∉ othersDir := by decide
    have hwR := walk_one fs R hRdir
    have hwO : fs.walk [R, othersDir] = Sys.ok Node.dir := by
      have := walk_dir_snoc fs [R] othersDir hwR
      simpa [hOdir] using this
    have hwS : fs.walk [R, e.1] = Sys.ok (Node.file e.2) := by
      have := walk_dir_snoc fs [R] e.1 hwR
      simpa [hsrc e (by simp)] using this
    have hres : resolve (R ++ slash ++ othersDir ++ slash ++ e.1) =
        some ([R, othersDir] ++ [e.1]) := by
      have := resolve_Join [othersDir, e.1] R (by
        intro c hc
        simp only [List.mem_cons, List.mem_singleton, List.not_mem_nil, or_false] at hc
        rcases hc with rfl | rfl | rfl
        · exact hR
        · exact hmk
        · exact hve)
      simpa [Join, List.append_assoc] using this
    have hot : othersTarget R (R ++ slash ++ e.1) =
        some (R ++ slash ++ othersDir ++ slash ++ e.1) := by
      unfold othersTarget
      rw [Split_two R e.1 hR.2 hve.2]
      rfl
    obtain ⟨fs1, e1, l1, r1⟩ := rename_file_spec (R ++ slash ++ e.1)
      (R ++ slash ++ othersDir ++ slash ++ e.1) [R, e.1] [R, othersDir] e.1 e.2 fs
      (resolve_two R e.1 hR hve) hres hwS hwO (by simp) (htgt e (by simp))
      (fun h => hro _ h (by simp)) (fun h => hro _ h ⟨[othersDir], rfl⟩)
    have l1' : ∀ x, fs1.look x =
        if x = [R, othersDir, e.1] then some (Node.file e.2)
        else if x = [R, e.1] then none else fs.look x := l1
    have hneO : e.1 ≠ othersDir := by
      intro h
      have := hsrc e (by simp)
      rw [h, hOdir] at this
      cases this
    obtain ⟨fs2, t2, e2, a2, c2, r2⟩ := ih fs1
      (t ++ [Call.rename (R ++ slash ++ e.1) (R ++ slash ++ othersDir ++ slash ++ e.1) none])
      (fun a ha => hval a (by simp [ha])) hnd2.2
      (by rw [l1']; simpa using hRdir)
      (by rw [l1']; simpa [Ne.symm hneO] using hOdir)
      (by
        intro a ha
        rw [l1']
        simpa [hne_src a ha] using hsrc a (by simp [ha]))
      (by
        intro a ha
        rw [l1']
        simpa [hne_src a ha] using htgt a (by simp [ha]))
      (by rw [r1]; exact hro)
    refine ⟨fs2, t2, ?_, ?_, ?_, by rw [r2, r1]⟩
    · simp only [List.map_cons, moveOthers, hot, World.rename, e1]
      exact e2
    · intro a ha
      rcases List.mem_cons.1 ha with rfl | ha
      · constructor
        · rw [c2, l1', if_pos rfl]
          intro b hb
          simp [hne_src b hb]
          exact fun h => hne_src b hb h.symm
        · rw [c2, l1']
          · simp
          · intro b hb
            simp
            exact fun h => hne_src b hb h.symm
      · exact a2 a ha
    · intro x hx
      have hxe := hx e (by simp)
      rw [c2 x (fun b hb => hx b (by simp [hb])), l1', if_neg hxe.1, if_neg hxe.2]


theorem level_second (R : Str) (date : Date) (q : Path) (h : q ∈ destDirs R date) :
    ∃ rest, q = R :: topName date :: rest := by
  obtain ⟨y, m, d⟩ := date
  unfold destDirs at h
  unfold topName
  by_cases a0 : y = 0
  · simp only [a0, if_true, List.mem_singleton] at h ⊢
    exact ⟨[], h⟩
  · by_cases a1 : y = -1
    · simp only [a1, if_true, show ¬ ((-1 : Int) = 0) by decide, if_false,
        List.mem_singleton] at h ⊢
      exact ⟨[], h⟩
    · simp only [a0, a1, if_false, List.mem_cons, List.mem_singleton, List.not_mem_nil,
        or_false] at h ⊢
      rcases h with rfl | rfl | rfl
      · exact ⟨[], rfl⟩
      · exact ⟨[_], rfl⟩
      · exact ⟨[_, _], rfl⟩

theorem destPath_second (R : Str) (date : Date) :
    ∃ rest, destPath R date = R :: topName date :: rest := by
  obtain ⟨y, m, d⟩ := date
  unfold destPath topName
  by_cases a0 : y = 0
  · simp [a0]
  · by_cases a1 : y = -1
    · simp [a1]
    · simp [a0, a1]

theorem topName_mem (date : Date) : ∀ c ∈ topName date, c ∈ decChars ∨ c ∈ unknownDates ∨
    c ∈ errorFiles := by
  intro c hc
  unfold topName at hc
  split at hc
  · exact Or.inr (Or.inl hc)
  · split at hc
    · exact Or.inr (Or.inr hc)
    · exact Or.inl (fmtInt_mem _ c hc)

theorem topName_no_dot (date : Date) : '.' ∉ topName date := by
  intro h
  rcases topName_mem date _ h with h | h | h
  · exact absurd h (by decide)
  · exact absurd h (by decide)
  · exact absurd h (by decide)

theorem topName_ne_others (date : Date) : topName date ≠ othersDir := by
  unfold topName
  split
  · decide
  · split
    · decide
    · exact (fmtInt_ne_marker _).2.2

theorem isJpg_dot (n : Str) (h : isJpg n = true) : '.' ∈ n := by
  rw [isJpg_iff] at h
  rcases h with h | h
  · exact h.subset (by decide)
  · exact h.subset (by decide)

theorem lookupNode_mem (nodes : List (Path × Node)) (q : Path) (k : Node)
    (h : lookupNode nodes q = some k) : (q, k) ∈ nodes := by
  induction nodes with
  | nil => simp [lookupNode] at h
  | cons e rest ih =>
    obtain ⟨p, k2⟩ := e
    simp only [lookupNode] at h
    by_cases hp : p = q
    · simp only [hp, if_true, Option.some.injEq] at h
      simp [hp, h]
    · simp only [hp, if_false] at h
      exact List.mem_cons_of_mem _ (ih h)

/-- In a flat directory every node below `R` is a listed file. -/
theorem flat_look (R : Str) (entries : List (Str × Exif)) (fs : FS)
    (hflat : ∀ nd ∈ fs.nodes, [R] <+: nd.1 →
      nd.1 = [R] ∨ nd.1 ∈ entries.map (fun e => [R, e.1]))
    (s : Str) (rest : Path) (k : Node) (h : fs.look (R :: s :: rest) = some k) :
    rest = [] ∧ ∃ e ∈ entries, s = e.1 := by
  unfold FS.look at h
  simp only [List.cons_ne_nil, List.cons.injEq, and_false, or_self, if_false] at h
  have hm := lookupNode_mem _ _ _ h
  rcases hflat _ hm ⟨s :: rest, rfl⟩ with h1 | h1
  · simp at h1
  · simp only [List.mem_map, List.cons.injEq, true_and] at h1
    obtain ⟨e, he, h2, h3⟩ := h1
    exact ⟨h3.symm, e, he, h2.symm⟩

/-- A path below `R` whose first component is not the folder of the entry
`e` is neither the target of `e` nor one of its directory levels. -/
theorem avoid_entry (R s : Str) (tl : Path) (e : Str × Exif)
    (h : s ≠ topName (dateOf (Node.file e.2))) :
    R :: s :: tl ≠ targetOf R e ∧ R :: s :: tl ∉ levelsOf R e := by
  constructor
  · intro hc
    obtain ⟨rest, hr⟩ := destPath_second R (dateOf (Node.file e.2))
    unfold targetOf at hc
    rw [hr] at hc
    simp only [List.cons_append, List.cons.injEq, true_and] at hc
    exact h hc.1
  · intro hc
    obtain ⟨rest, hr⟩ := level_second R _ _ hc
    simp only [List.cons.injEq, true_and] at hr
    exact h hr.1

theorem placeOf_image (R : Str) (e : Str × Exif) (hj : isJpg e.1 = true)
    (hy : yearOk e.2 = true) : placeOf R e.1 e.2 = targetOf R e := by
  obtain ⟨n, c⟩ := e
  cases c with
  | decodeError => simp [placeOf, targetOf, destPath, dateOf, hj]
  | noDateTime => simp [placeOf, targetOf, destPath, dateOf, hj]
  | dateTime y m d =>
    simp only [yearOk, Bool.and_eq_true, decide_eq_true_eq] at hy
    simp [placeOf, targetOf, destPath, dateOf, hj, hy.1, hy.2]

theorem placeOf_other (R : Str) (e : Str × Exif) (hj : isJpg e.1 = false) :
    placeOf R e.1 e.2 = [R, othersDir, e.1] := by
  obtain ⟨n, c⟩ := e
  cases c <;> simp [placeOf, hj]

theorem walk_target (R n : Str) (date : Date) (c : Exif) (fs : FS)
    (hRdir : fs.look [R] = some Node.dir)
    (hlev : ∀ q ∈ destDirs R date, fs.look q = some Node.dir)
    (hfile : fs.look (destPath R date ++ [n]) = some (Node.file c)) :
    fs.walk (destPath R date ++ [n]) = Sys.ok (Node.file c) := by
  have wR := walk_one fs R hRdir
  obtain ⟨y, m, d⟩ := date
  unfold destPath at hfile ⊢
  unfold destDirs at hlev
  have step : ∀ (par : Path) (s : Str) (k : Node), fs.walk par = Sys.ok Node.dir →
      fs.look (par ++ [s]) = some k → fs.walk (par ++ [s]) = Sys.ok k := by
    intro par s k hp hl
    rw [walk_dir_snoc fs par s hp, hl]
  by_cases a0 : y = 0
  · simp only [a0, if_true, List.mem_singleton, forall_eq] at hlev hfile ⊢
    exact step _ _ _ (step [R] _ _ wR hlev) hfile
  · by_cases a1 : y = -1
    · simp only [a1, if_true, List.mem_singleton, forall_eq,
        show ¬ ((-1 : Int) = 0) by decide, if_false] at hlev hfile ⊢
      exact step _ _ _ (step [R] _ _ wR hlev) hfile
    · simp only [a0, a1, if_false] at hlev hfile ⊢
      have w2 := step [R] _ _ wR (hlev [R, fmtInt y] (by simp))
      have w3 := step [R, fmtInt y] _ _ w2 (hlev [R, fmtInt y, fmtInt m] (by simp))
      have w4 := step [R, fmtInt y, fmtInt m] _ _ w3
        (hlev [R, fmtInt y, fmtInt m, fmtInt d] (by simp))
      exact step _ _ _ w4 hfile

theorem parseFiles_entries (R : Str) (entries : List (Str × Exif)) :
    parseFiles R (entries.map (fun e => (⟨e.1, false⟩ : FileInfo))) =
      ((entries.filter (fun e => isJpg e.1)).map (fun e => R ++ slash ++ e.1),
        (entries.filter (fun e => !isJpg e.1)).map (fun e => R ++ slash ++ e.1)) := by
  unfold parseFiles
  rw [foldl_parseStep]
  simp [List.filter_map, Function.comp_def]

/-! ## Placing a dated picture (C4) -/

/-- C4, as stated, fails.  In the existing directory `r` with the image
r/a.jpg and a regular file r/2021, `move` with the date (2021,5,3) finds
that `os.Stat` of r/2021/5/3 fails with ENOTDIR (which is not "not exist"),
skips `buildPath`, and the `os.Rename` fails; its error is dropped.  The
image is still at r/a.jpg and nothing is at r/2021/5/3/a.jpg.  In a
directory `r` without write permission the `os.Mkdir` of r/2021 fails and
`log.Fatal` ends the run, again with the image still at r/a.jpg.  Two more
inputs fail through the defects of C7 and C5: for the root `error_files` the
run ends in `log.Fatal`, and for the root a/b the image a/b/c.jpg ends at
a/2020/1/15/b instead of a/b/2020/1/15/c.jpg. -/
theorem move_blocked_by_file :
    fsYearTaken.stat "r".toList = Sys.ok Node.dir ∧
    fsYearTaken.stat "r/a.jpg".toList = Sys.ok (Node.file (Exif.dateTime 2021 5 3)) ∧
    move ⟨"r/a.jpg".toList, (2021, 5, 3)⟩ ⟨fsYearTaken, []⟩ =
      Result.ok () ⟨fsYearTaken,
        [Call.stat "r/2021/5/3".toList,
          Call.rename "r/a.jpg".toList "r/2021/5/3/a.jpg".toList (some Errno.ENOTDIR)]⟩ ∧
    (move ⟨"r/a.jpg".toList, (2021, 5, 3)⟩ ⟨fsYearTaken, []⟩).world.fs.stat
      "r/2021/5/3/a.jpg".toList = Sys.err Errno.ENOTDIR ∧
    (move ⟨"r/a.jpg".toList, (2021, 5, 3)⟩ ⟨fsYearTaken, []⟩).world.fs.stat
      "r/a.jpg".toList = Sys.ok (Node.file (Exif.dateTime 2021 5 3)) ∧
    fsLocked.stat "r".toList = Sys.ok Node.dir ∧
    move ⟨"r/a.jpg".toList, (2021, 5, 3)⟩ ⟨fsLocked, []⟩ =
      Result.fatal ⟨fsLocked,
        [Call.stat "r/2021/5/3".toList, Call.stat "r/2021".toList,
          Call.mkdir "r/2021".toList (some Errno.EACCES)]⟩ ∧
    (move ⟨"error_files/a.jpg".toList, (2020, 1, 15)⟩ ⟨fsMarkerName, []⟩).isOk = false ∧
    (move ⟨"a/b/c.jpg".toList, (2020, 1, 15)⟩ ⟨fsNested, []⟩).world.fs.stat
      "a/2020/1/15/b".toList = Sys.ok (Node.file (Exif.dateTime 2020 1 15)) ∧
    (move ⟨"a/b/c.jpg".toList, (2020, 1, 15)⟩ ⟨fsNested, []⟩).world.fs.stat
      "a/b/2020/1/15/c.jpg".toList = Sys.err Errno.ENOENT := by
  decide

/-- C4, amended: let R be a single non-empty path component whose name
contains neither "unknown_dates" nor "error_files", n a file name, and
(y,m,d) a date with year neither 0 nor -1.  On a filesystem where R is a
directory, nothing at or below R is write-protected, R/n is a file, none of
R/y, R/y/m, R/y/m/d is occupied by a file and R/y/m/d/n is not a directory,
`move` returns, the file (with its content) is at R/y/m/d/n, with y, m, d in
decimal without padding, nothing is at R/n any more, and every path other
than these two and the three directory levels is as before. -/
theorem move_round_trip (R n : Str) (y m d : Int) (c : Exif) (fs : FS) (t : List Call)
    (hR : R ≠ [] ∧ '/' ∉ R)
    (hmark : Contains R unknownDates = false ∧ Contains R errorFiles = false)
    (hn : n ≠ [] ∧ '/' ∉ n)
    (hy : y ≠ 0 ∧ y ≠ -1)
    (hRdir : fs.look [R] = some Node.dir)
    (hfile : fs.look [R, n] = some (Node.file c))
    (hfree : ∀ q ∈ [[R, fmtInt y], [R, fmtInt y, fmtInt m], [R, fmtInt y, fmtInt m, fmtInt d]],
      fs.fileAt q = false)
    (htgt : fs.look [R, fmtInt y, fmtInt m, fmtInt d, n] ≠ some Node.dir)
    (hro : ∀ q ∈ fs.readOnly, ¬ [R] <+: q) :
    ∃ w1, move ⟨R ++ slash ++ n, (y, m, d)⟩ ⟨fs, t⟩ = Result.ok () w1 ∧
      w1.fs.stat (R ++ slash ++ fmtInt y ++ slash ++ fmtInt m ++ slash ++ fmtInt d ++
        slash ++ n) = Sys.ok (Node.file c) ∧
      w1.fs.stat (R ++ slash ++ n) = Sys.err Errno.ENOENT ∧
      (∀ x, x ≠ [R, n] → x ≠ [R, fmtInt y, fmtInt m, fmtInt d, n] →
        x ∉ [[R, fmtInt y], [R, fmtInt y, fmtInt m], [R, fmtInt y, fmtInt m, fmtInt d]] →
        w1.fs.look x = fs.look x) ∧
      fmtInt 2021 = "2021".toList ∧ fmtInt 5 = "5".toList ∧ fmtInt 3 = "3".toList := by
  have hfree : ∀ q ∈ [[R, fmtInt y], [R, fmtInt y, fmtInt m],
      [R, fmtInt y, fmtInt m, fmtInt d]], ∀ c2, fs.look q ≠ some (Node.file c2) :=
    fun q hq c2 h => fileAt_false fs q (hfree q hq) c2 h
  have hmark2 : ¬ unknownDates <:+: R ∧ ¬ errorFiles <:+: R := by
    constructor
    · rw [← Contains_iff, hmark.1]; simp
    · rw [← Contains_iff, hmark.2]; simp
  have hdp : destPath R (y, m, d) = [R, fmtInt y, fmtInt m, fmtInt d] := by
    simp [destPath, hy.1, hy.2]
  have hdd : destDirs R (y, m, d) = [[R, fmtInt y], [R, fmtInt y, fmtInt m],
      [R, fmtInt y, fmtInt m, fmtInt d]] := by
    simp [destDirs, hy.1, hy.2]
  obtain ⟨fs1, t1, e1, l1, _⟩ := move_spec R n (y, m, d) c fs t hR hmark2 hn hRdir hfile
    (by rw [hdd]; exact hfree) (by rw [hdp]; exact htgt) hro
  rw [hdp, hdd] at l1
  have hnY : n ≠ fmtInt y := by
    intro h
    apply hfree [R, fmtInt y] (by simp) c
    rw [← h]
    exact hfile
  have k1 : fs1.look [R] = some Node.dir := by
    rw [l1]; simpa using hRdir
  have k2 : fs1.look [R, fmtInt y] = some Node.dir := by
    rw [l1]; simp [hnY.symm]
  have k3 : fs1.look [R, fmtInt y, fmtInt m] = some Node.dir := by
    rw [l1]; simp
  have k4 : fs1.look [R, fmtInt y, fmtInt m, fmtInt d] = some Node.dir := by
    rw [l1]; simp
  have k5 : fs1.look [R, fmtInt y, fmtInt m, fmtInt d, n] = some (Node.file c) := by
    rw [l1]; simp
  have k0 : fs1.look [R, n] = none := by
    rw [l1]; simp
  have w1 := walk_one fs1 R k1
  have w2 : fs1.walk [R, fmtInt y] = Sys.ok Node.dir := by
    have := walk_dir_snoc fs1 [R] (fmtInt y) w1
    simpa [k2] using this
  have w3 : fs1.walk [R, fmtInt y, fmtInt m] = Sys.ok Node.dir := by
    have := walk_dir_snoc fs1 [R, fmtInt y] (fmtInt m) w2
    simpa [k3] using this
  have w4 : fs1.walk [R, fmtInt y, fmtInt m, fmtInt d] = Sys.ok Node.dir := by
    have := walk_dir_snoc fs1 [R, fmtInt y, fmtInt m] (fmtInt d) w3
    simpa [k4] using this
  have w5 : fs1.walk [R, fmtInt y, fmtInt m, fmtInt d, n] = Sys.ok (Node.file c) := by
    have := walk_dir_snoc fs1 [R, fmtInt y, fmtInt m, fmtInt d] n w4
    simpa [k5] using this
  have w0 : fs1.walk [R, n] = Sys.err Errno.ENOENT := by
    have := walk_dir_snoc fs1 [R] n w1
    simpa [k0] using this
  have hres : resolve (R ++ slash ++ fmtInt y ++ slash ++ fmtInt m ++ slash ++ fmtInt d ++
      slash ++ n) = some [R, fmtInt y, fmtInt m, fmtInt d, n] := by
    have := resolve_Join [fmtInt y, fmtInt m, fmtInt d, n] R (by
      intro c hc
      simp only [List.mem_cons, List.mem_singleton, List.not_mem_nil, or_false] at hc
      rcases hc with rfl | rfl | rfl | rfl | rfl
      · exact hR
      · exact ⟨fmtInt_ne_nil y, fmtInt_no_slash y⟩
      · exact ⟨fmtInt_ne_nil m, fmtInt_no_slash m⟩
      · exact ⟨fmtInt_ne_nil d, fmtInt_no_slash d⟩
      · exact hn)
    simpa [Join, List.append_assoc] using this
  refine ⟨⟨fs1, t1⟩, e1, ?_, ?_, ?_, by decide, by decide, by decide⟩
  · rw [stat_resolved _ _ _ hres]
    exact w5
  · rw [stat_resolved _ _ _ (resolve_two R n hR hn)]
    exact w0
  · intro x h1 h2 h3
    rw [l1]
    simp only [List.append_eq, List.cons_append, List.nil_append] at h2 ⊢
    rw [if_neg h2, if_neg h1, if_neg h3]

/-- Witness of C4: the image r/a.jpg dated 2021-05-03 in a directory `r` that
holds nothing else ends at r/2021/5/3/a.jpg. -/
theorem move_round_trip_witness :
    ∃ w1, move ⟨"r".toList ++ slash ++ "a.jpg".toList, (2021, 5, 3)⟩ ⟨fsOneImage, []⟩ =
        Result.ok () w1 ∧
      w1.fs.stat ("r".toList ++ slash ++ fmtInt 2021 ++ slash ++ fmtInt 5 ++ slash ++
        fmtInt 3 ++ slash ++ "a.jpg".toList) = Sys.ok (Node.file (Exif.dateTime 2021 5 3)) ∧
      w1.fs.stat ("r".toList ++ slash ++ "a.jpg".toList) = Sys.err Errno.ENOENT ∧
      (∀ x, x ≠ ["r".toList, "a.jpg".toList] →
        x ≠ ["r".toList, fmtInt 2021, fmtInt 5, fmtInt 3, "a.jpg".toList] →
        x ∉ [["r".toList, fmtInt 2021], ["r".toList, fmtInt 2021, fmtInt 5],
          ["r".toList, fmtInt 2021, fmtInt 5, fmtInt 3]] →
        w1.fs.look x = fsOneImage.look x) ∧
      fmtInt 2021 = "2021".toList ∧ fmtInt 5 = "5".toList ∧ fmtInt 3 = "3".toList := by
  have hname : ∀ n : Str, n ∈ ["r".toList, "a.jpg".toList] → n ≠ [] ∧ '/' ∉ n := by decide
  have hmark : Contains "r".toList unknownDates = false ∧
      Contains "r".toList errorFiles = false := ⟨rfl, rfl⟩
  have hfree : ∀ q ∈ [["r".toList, fmtInt 2021], ["r".toList, fmtInt 2021, fmtInt 5],
      ["r".toList, fmtInt 2021, fmtInt 5, fmtInt 3]], fsOneImage.fileAt q = false := by decide
  have htgt : fsOneImage.look ["r".toList, fmtInt 2021, fmtInt 5, fmtInt 3, "a.jpg".toList] ≠
      some Node.dir := by decide
  have hro : ∀ q ∈ fsOneImage.readOnly, ¬ ["r".toList] <+: q := by decide
  exact move_round_trip "r".toList "a.jpg".toList 2021 5 3 (Exif.dateTime 2021 5 3) fsOneImage []
    (hname _ (List.mem_cons_self _ _)) hmark (hname _ (by simp)) ⟨by decide, by decide⟩ rfl rfl
    hfree htgt hro

/-! ## A whole run on a flat directory (C1) -/

/-- C1, as stated, fails.  The directory `r` holds one file, named `others`,
which is not an image: `os.Mkdir` of r/others fails because the name is
taken, `os.Rename` of r/others to r/others/others fails, both errors are
dropped, and the run returns with the file still at its original path and
nothing at r/others/others.  In a directory `r` without write permission
the `os.Mkdir` of r/2021 fails, `log.Fatal` ends the run, and both files are
still at their original paths.  An image that cannot be opened for reading
ends the run in `log.Fatal` before anything is moved.  An image whose time
stamp has the year 0 is taken for one without a date and filed under
unknown_dates, not under 0/1/1.  `getDate` never closes a file and all
pictures are opened before the first move, so with more images than the
process can hold open the run ends in `log.Fatal` as well.  Two more inputs
fail through the defects of
C7 and C5: for the directory `error_files` the run ends in `log.Fatal`, and
for the directory a/b the run returns with nothing at a/b/2020/1/15/c.jpg
and nothing at a/b/others/d.txt. -/
theorem organize_keeps_file_named_others :
    parseFiles "r".toList [⟨"others".toList, false⟩] = ([], ["r/others".toList]) ∧
    fsOthersFile.stat "r".toList = Sys.ok Node.dir ∧
    organize ([], ["r/others".toList]) ⟨fsOthersFile, []⟩ =
      Result.ok () ⟨fsOthersFile,
        [Call.mkdir "r/others".toList (some Errno.EEXIST),
          Call.rename "r/others".toList "r/others/others".toList (some Errno.ENOTDIR)]⟩ ∧
    fsOthersFile.stat "r/others".toList = Sys.ok (Node.file Exif.decodeError) ∧
    fsOthersFile.stat "r/others/others".toList = Sys.err Errno.ENOTDIR ∧
    parseFiles "r".toList [⟨"a.jpg".toList, false⟩, ⟨"c.txt".toList, false⟩] =
      (["r/a.jpg".toList], ["r/c.txt".toList]) ∧
    organize (["r/a.jpg".toList], ["r/c.txt".toList]) ⟨fsLocked, []⟩ =
      Result.fatal ⟨fsLocked,
        [Call.openFile "r/a.jpg".toList none,
          Call.stat "r/2021/5/3".toList, Call.stat "r/2021".toList,
          Call.mkdir "r/2021".toList (some Errno.EACCES)]⟩ ∧
    organize (["r/a.jpg".toList], ["r/c.txt".toList]) ⟨fsUnreadable, []⟩ =
      Result.fatal ⟨fsUnreadable, [Call.openFile "r/a.jpg".toList (some Errno.EACCES)]⟩ ∧
    organize (["r/a.jpg".toList, "r/b.jpg".toList], ["r/c.txt".toList])
        ⟨fsOneDescriptor, []⟩ =
      Result.fatal ⟨fsOneDescriptor,
        [Call.openFile "r/a.jpg".toList none,
          Call.openFile "r/b.jpg".toList (some Errno.EMFILE)]⟩ ∧
    (organize (["r/a.jpg".toList], ["r/c.txt".toList]) ⟨fsYearZero, []⟩).world.fs.stat
      "r/unknown_dates/a.jpg".toList = Sys.ok (Node.file (Exif.dateTime 0 1 1)) ∧
    (organize (["r/a.jpg".toList], ["r/c.txt".toList]) ⟨fsYearZero, []⟩).world.fs.stat
      "r/0/1/1/a.jpg".toList = Sys.err Errno.ENOENT ∧
    (organize (parseFiles "error_files".toList
        [⟨"a.jpg".toList, false⟩, ⟨"c.txt".toList, false⟩]) ⟨fsMarkerName, []⟩).isOk = false ∧
    (organize (parseFiles "a/b".toList
        [⟨"c.jpg".toList, false⟩, ⟨"d.txt".toList, false⟩]) ⟨fsNested, []⟩).isOk = true ∧
    (organize (parseFiles "a/b".toList
        [⟨"c.jpg".toList, false⟩, ⟨"d.txt".toList, false⟩]) ⟨fsNested, []⟩).world.fs.stat
      "a/b/2020/1/15/c.jpg".toList = Sys.err Errno.ENOENT ∧
    (organize (parseFiles "a/b".toList
        [⟨"c.jpg".toList, false⟩, ⟨"d.txt".toList, false⟩]) ⟨fsNested, []⟩).world.fs.stat
      "a/b/others/d.txt".toList = Sys.err Errno.ENOENT := by
  decide

/-- The run on a flat directory, in terms of resolved paths. -/
theorem organize_flat_walk (R : Str) (entries : List (Str × Exif)) (fs : FS)
    (hR : R ≠ [] ∧ '/' ∉ R)
    (hmark : Contains R unknownDates = false ∧ Contains R errorFiles = false)
    (hnames : ∀ e ∈ entries, e.1 ≠ [] ∧ '/' ∉ e.1)
    (hnodup : (entries.map Prod.fst).Nodup)
    (hone : ∃ e ∈ entries, isJpg e.1 = false)
    (hyear : ∀ e ∈ entries, isJpg e.1 = true → yearOk e.2 = true)
    (hclash : ∀ e ∈ entries, isJpg e.1 = false → e.1 ∉ folderNames entries)
    (hRdir : fs.look [R] = some Node.dir)
    (hfiles : ∀ e ∈ entries, fs.look [R, e.1] = some (Node.file e.2))
    (hflat : ∀ nd ∈ fs.nodes, [R] <+: nd.1 →
      nd.1 = [R] ∨ nd.1 ∈ entries.map (fun e => [R, e.1]))
    (hro : ∀ q ∈ fs.readOnly, ¬ [R] <+: q)
    (hread : ∀ e ∈ entries, isJpg e.1 = true → [R, e.1] ∉ fs.unreadable)
    (hopen : (entries.filter (fun e => isJpg e.1)).length ≤ fs.maxOpen) :
    ∃ w1, organize (parseFiles R (entries.map (fun e => (⟨e.1, false⟩ : FileInfo))))
        ⟨fs, []⟩ = Result.ok () w1 ∧
      ∀ e ∈ entries, w1.fs.walk (placeOf R e.1 e.2) = Sys.ok (Node.file e.2) ∧
        w1.fs.walk [R, e.1] = Sys.err Errno.ENOENT := by
  have hmark2 : ¬ unknownDates <:+: R ∧ ¬ errorFiles <:+: R := by
    constructor
    · rw [← Contains_iff, hmark.1]; simp
    · rw [← Contains_iff, hmark.2]; simp
  -- the two lists
  have himg : ∀ e, e ∈ entries.filter (fun e => isJpg e.1) ↔ e ∈ entries ∧ isJpg e.1 = true := by
    intro e; simp [List.mem_filter]
  have hoth : ∀ e, e ∈ entries.filter (fun e => !isJpg e.1) ↔
      e ∈ entries ∧ isJpg e.1 = false := by
    intro e; simp [List.mem_filter]
  have hsub1 : (entries.filter (fun e => isJpg e.1)).Sublist entries := List.filter_sublist _
  have hsub2 : (entries.filter (fun e => !isJpg e.1)).Sublist entries := List.filter_sublist _
  -- names never clash with folders
  have K1 : ∀ a ∈ entries, ∀ b ∈ entries.filter (fun e => isJpg e.1),
      a.1 ≠ topName (dateOf (Node.file b.2)) := by
    intro a ha b hb h
    by_cases hj : isJpg a.1 = true
    · have := isJpg_dot a.1 hj
      rw [h] at this
      exact topName_no_dot _ this
    · simp only [Bool.not_eq_true] at hj
      apply hclash a ha hj
      unfold folderNames
      rw [h]
      exact List.mem_cons_of_mem _ (List.mem_map_of_mem _ hb)
  have K2 : ∀ a ∈ entries, a.1 ≠ othersDir := by
    intro a ha h
    by_cases hj : isJpg a.1 = true
    · have := isJpg_dot a.1 hj
      rw [h] at this
      exact absurd this (by decide)
    · simp only [Bool.not_eq_true] at hj
      apply hclash a ha hj
      unfold folderNames
      rw [h]
      exact List.mem_cons_self _ _
  have K3 : ∀ a ∈ entries.filter (fun e => isJpg e.1),
      ∀ b ∈ entries.filter (fun e => !isJpg e.1), a.1 ≠ b.1 := by
    intro a ha b hb h
    have h1 := ((himg a).1 ha).2
    have h2 := ((hoth b).1 hb).2
    rw [h, h2] at h1
    cases h1
  -- the initial state
  have H3 : ∀ e ∈ entries.filter (fun e => isJpg e.1), ∀ q ∈ levelsOf R e, ∀ c2,
      fs.look q ≠ some (Node.file c2) := by
    intro e he q hq c2 hl
    obtain ⟨rest, hr⟩ := level_second R _ _ hq
    rw [hr] at hl
    obtain ⟨_, a, ha, hs⟩ := flat_look R entries fs hflat _ _ _ hl
    exact K1 a ha e he hs.symm
  have H4 : ∀ e ∈ entries.filter (fun e => isJpg e.1),
      fs.look (targetOf R e) ≠ some Node.dir := by
    intro e he hl
    obtain ⟨rest, hr⟩ := destPath_second R (dateOf (Node.file e.2))
    unfold targetOf at hl
    rw [hr] at hl
    have := (flat_look R entries fs hflat _ _ _ hl).1
    simp at this
  -- the dates are read
  obtain ⟨t0, e0⟩ := setPictureDates_spec R hR (entries.filter (fun e => isJpg e.1)) fs []
    (fun e he => hnames e ((himg e).1 he).1) hRdir (fun e he => hfiles e ((himg e).1 he).1)
    (fun e he => hread e ((himg e).1 he).1 ((himg e).1 he).2)
    (by simpa [openCount] using hopen)
  -- the images are moved
  obtain ⟨fs1, t1, e1, a1, b1, c1, r1⟩ := movePics_spec R hR hmark2
    (entries.filter (fun e => isJpg e.1)) fs t0
    (fun e he => hnames e ((himg e).1 he).1) (hnodup.sublist (hsub1.map _)) hRdir
    (fun e he => hfiles e ((himg e).1 he).1) H3 H4 hro
  have keep1 : ∀ (s : Str) (tl : Path),
      (∀ e ∈ entries.filter (fun e => isJpg e.1), s ≠ topName (dateOf (Node.file e.2))) →
      (∀ e ∈ entries.filter (fun e => isJpg e.1), R :: s :: tl ≠ [R, e.1]) →
      fs1.look (R :: s :: tl) = fs.look (R :: s :: tl) := by
    intro s tl h1 h2
    apply c1
    intro e he
    have := avoid_entry R s tl e (h1 e he)
    exact ⟨this.1, h2 e he, this.2⟩
  have hRdir1 : fs1.look [R] = some Node.dir := by
    rw [c1, hRdir]
    intro e he
    refine ⟨?_, by simp, ?_⟩
    · intro h
      have := target_length R e.1 (dateOf (Node.file e.2))
      have h2 := congrArg List.length h
      simp only [targetOf] at h2
      simp only [List.length_cons, List.length_nil] at h2
      omega
    · intro h
      have := (level_length R _ _ h).1
      simp at this
  -- the folder for the other files
  have hO1 : fs1.look [R, othersDir] = fs.look [R, othersDir] :=
    keep1 othersDir [] (fun e _ => (topName_ne_others _).symm)
      (fun e he h => K2 e ((himg e).1 he).1 (by simpa using h.symm))
  have hOfree : ∀ c, fs1.look ([R] ++ [othersDir]) ≠ some (Node.file c) := by
    intro c hl
    have hl2 : fs.look [R, othersDir] = some (Node.file c) := by rw [← hO1]; exact hl
    obtain ⟨_, a, ha, hs⟩ := flat_look R entries fs hflat _ _ _ hl2
    exact K2 a ha hs.symm
  obtain ⟨fs2, t2, e2, l2, r2⟩ := mkdir_either (R ++ slash ++ othersDir) [R] othersDir
    ⟨fs1, t1⟩ (resolve_two R othersDir hR (by decide)) (walk_one fs1 R hRdir1) hOfree
    (by rw [r1]; exact fun h => hro _ h (List.prefix_refl _))
  have l2' : ∀ x, fs2.look x = if x = [R, othersDir] then some Node.dir else fs1.look x := l2
  have hsrcO : ∀ e ∈ entries.filter (fun e => !isJpg e.1),
      fs2.look [R, e.1] = some (Node.file e.2) := by
    intro e he
    have hee := ((hoth e).1 he).1
    rw [l2', if_neg (by simpa using K2 e hee), keep1 e.1 []
      (fun b hb => K1 e hee b hb) (fun b hb h => K3 b hb e he (by simpa using h.symm))]
    exact hfiles e hee
  have htgtO : ∀ e ∈ entries.filter (fun e => !isJpg e.1),
      fs2.look [R, othersDir, e.1] ≠ some Node.dir := by
    intro e he hl
    rw [l2', if_neg (by simp), keep1 othersDir [e.1]
      (fun b _ => (topName_ne_others _).symm) (fun b _ => by simp)] at hl
    have := (flat_look R entries fs hflat _ _ _ hl).1
    simp at this
  obtain ⟨fs3, t3, e3, a3, c3, r3⟩ := moveOthers_spec R hR
    (entries.filter (fun e => !isJpg e.1)) fs2 t2
    (fun e he => hnames e ((hoth e).1 he).1) (hnodup.sublist (hsub2.map _))
    (by rw [l2']; simpa using hRdir1) (by rw [l2']; simp) hsrcO htgtO
    (by rw [r2]; simp only []; rw [r1]; exact hro)
  have keep3 : ∀ x, (∀ o ∈ entries.filter (fun e => !isJpg e.1),
      x ≠ [R, othersDir, o.1] ∧ x ≠ [R, o.1]) → x ≠ [R, othersDir] →
      fs3.look x = fs1.look x := by
    intro x h1 h2
    rw [c3 x h1, l2', if_neg h2]
  -- the run as a whole
  have hrun : organize (parseFiles R (entries.map (fun e => (⟨e.1, false⟩ : FileInfo))))
      ⟨fs, []⟩ = Result.ok () ⟨fs3, t3⟩ := by
    obtain ⟨o, ho, hoj⟩ := hone
    have hmem : o ∈ entries.filter (fun e => !isJpg e.1) := (hoth o).2 ⟨ho, hoj⟩
    obtain ⟨o0, orest, hcons⟩ := List.exists_cons_of_ne_nil (List.ne_nil_of_mem hmem)
    have ho0 : o0 ∈ entries.filter (fun e => !isJpg e.1) := by rw [hcons]; simp
    have hsp := Split_two R o0.1 hR.2 (hnames o0 ((hoth o0).1 ho0).1).2
    rw [parseFiles_entries]
    unfold organize
    simp only [e0, bind_ok, e1]
    rw [hcons] at e3 ⊢
    simp only [List.map_cons, hsp, List.getElem?_cons_zero]
    have e2' : (World.mkdir ⟨fs1, t1⟩ (R ++ slash ++ othersDir)).2 = ⟨fs2, t2⟩ := e2
    rw [e2']
    exact e3
  refine ⟨⟨fs3, t3⟩, hrun, ?_⟩
  intro e he
  have hR3 : fs3.look [R] = some Node.dir := by
    rw [keep3 [R] (fun o _ => by simp) (by simp), hRdir1]
  have wR3 := walk_one fs3 R hR3
  by_cases hj : isJpg e.1 = true
  · have hei : e ∈ entries.filter (fun e => isJpg e.1) := (himg e).2 ⟨he, hj⟩
    rw [placeOf_image R e hj (hyear e he hj)]
    have keepTop : ∀ tl : Path, fs3.look (R :: topName (dateOf (Node.file e.2)) :: tl) =
        fs1.look (R :: topName (dateOf (Node.file e.2)) :: tl) := by
      intro tl
      apply keep3
      · intro o ho
        constructor
        · intro h
          simp only [List.cons.injEq, true_and] at h
          exact topName_ne_others _ h.1
        · intro h
          simp only [List.cons.injEq, true_and] at h
          exact K1 o ((hoth o).1 ho).1 e hei h.1.symm
      · intro h
        simp only [List.cons.injEq, true_and] at h
        exact topName_ne_others _ h.1
    constructor
    · apply walk_target R e.1 _ e.2 fs3 hR3
      · intro q hq
        obtain ⟨rest, hr⟩ := level_second R _ _ hq
        rw [hr, keepTop, ← hr]
        exact b1 e hei q hq
      · obtain ⟨rest, hr⟩ := destPath_second R (dateOf (Node.file e.2))
        have ht : fs1.look (targetOf R e) = some (Node.file e.2) := (a1 e hei).1
        unfold targetOf at ht
        rw [hr] at ht ⊢
        rw [List.cons_append, List.cons_append] at ht ⊢
        rw [keepTop]
        exact ht
    · have hs : fs3.look [R, e.1] = none := by
        rw [keep3, (a1 e hei).2]
        · intro o ho
          refine ⟨by simp, ?_⟩
          intro h
          simp only [List.cons.injEq, and_true, true_and] at h
          exact K3 e hei o ho h
        · intro h
          simp only [List.cons.injEq, and_true, true_and] at h
          exact K2 e he h
      have := walk_dir_snoc fs3 [R] e.1 wR3
      simpa [hs] using this
  · simp only [Bool.not_eq_true] at hj
    have heo : e ∈ entries.filter (fun e => !isJpg e.1) := (hoth e).2 ⟨he, hj⟩
    rw [placeOf_other R e hj]
    have hO3 : fs3.look [R, othersDir] = some Node.dir := by
      rw [c3, l2']
      · simp
      · intro o ho
        refine ⟨by simp, ?_⟩
        intro h
        simp only [List.cons.injEq, and_true, true_and] at h
        exact K2 o ((hoth o).1 ho).1 h.symm
    have wO3 : fs3.walk [R, othersDir] = Sys.ok Node.dir := by
      have := walk_dir_snoc fs3 [R] othersDir wR3
      simpa [hO3] using this
    constructor
    · have := walk_dir_snoc fs3 [R, othersDir] e.1 wO3
      simpa [(a3 e heo).1] using this
    · have := walk_dir_snoc fs3 [R] e.1 wR3
      simpa [(a3 e heo).2] using this


theorem placeOf_resolve (R n : Str) (x : Exif) (hR : R ≠ [] ∧ '/' ∉ R)
    (hn : n ≠ [] ∧ '/' ∉ n) :
    resolve (Join (placeOf R n x) slash) = some (placeOf R n x) := by
  have hu : unknownDates ≠ [] ∧ '/' ∉ unknownDates := by decide
  have he : errorFiles ≠ [] ∧ '/' ∉ errorFiles := by decide
  have ho : othersDir ≠ [] ∧ '/' ∉ othersDir := by decide
  have three : ∀ a : Str, a ≠ [] ∧ '/' ∉ a →
      resolve (Join [R, a, n] slash) = some [R, a, n] := by
    intro a ha
    apply resolve_Join
    intro c hc
    simp only [List.mem_cons, List.mem_singleton, List.not_mem_nil, or_false] at hc
    rcases hc with rfl | rfl | rfl
    · exact hR
    · exact ha
    · exact hn
  have five : ∀ y m d : Int, resolve (Join [R, fmtInt y, fmtInt m, fmtInt d, n] slash) =
      some [R, fmtInt y, fmtInt m, fmtInt d, n] := by
    intro y m d
    apply resolve_Join
    intro c hc
    simp only [List.mem_cons, List.mem_singleton, List.not_mem_nil, or_false] at hc
    rcases hc with rfl | rfl | rfl | rfl | rfl
    · exact hR
    · exact ⟨fmtInt_ne_nil y, fmtInt_no_slash y⟩
    · exact ⟨fmtInt_ne_nil m, fmtInt_no_slash m⟩
    · exact ⟨fmtInt_ne_nil d, fmtInt_no_slash d⟩
    · exact hn
  by_cases hj : isJpg n = true
  · cases x with
    | decodeError => simpa [placeOf, hj] using three _ he
    | noDateTime => simpa [placeOf, hj] using three _ hu
    | dateTime y m d => simpa [placeOf, hj] using five y m d
  · cases x <;> simpa [placeOf, hj] using three _ ho

/-- C1, amended: call a file an image when its name contains ".JPG" or
".jpg" (the test of `parseFiles`).  Let R be a single non-empty path
component whose name contains neither "unknown_dates" nor "error_files", and
let the listing of R consist of non-directory entries with distinct valid
names, at least one of them not an image, no image with a date of year 0 or
-1, and no non-image file named like a folder the run creates directly under
R ("others", or the unknown_dates, error_files or year folder of an image of
the listing).  On a filesystem where R is a directory that holds exactly
the listed files, nothing at or below R is write-protected, every image can
be opened for reading, and the images are no more than the process can hold
open at once (`getDate` never closes a file), `parseFiles` followed by
`organize` returns, and afterwards `os.Stat` finds every listed file, with
its content, at the path the layout gives it (R/y/m/d/name,
R/error_files/name, R/unknown_dates/name for an image, R/others/name for
any other file) and reports its original path R/name as missing. -/
theorem organize_flat_directory (R : Str) (entries : List (Str × Exif)) (fs : FS)
    (hR : R ≠ [] ∧ '/' ∉ R)
    (hmark : Contains R unknownDates = false ∧ Contains R errorFiles = false)
    (hnames : ∀ e ∈ entries, e.1 ≠ [] ∧ '/' ∉ e.1)
    (hnodup : (entries.map Prod.fst).Nodup)
    (hone : ∃ e ∈ entries, isJpg e.1 = false)
    (hyear : ∀ e ∈ entries, isJpg e.1 = true → yearOk e.2 = true)
    (hclash : ∀ e ∈ entries, isJpg e.1 = false → e.1 ∉ folderNames entries)
    (hRdir : fs.look [R] = some Node.dir)
    (hfiles : ∀ e ∈ entries, fs.look [R, e.1] = some (Node.file e.2))
    (hflat : ∀ nd ∈ fs.nodes, [R] <+: nd.1 →
      nd.1 = [R] ∨ nd.1 ∈ entries.map (fun e => [R, e.1]))
    (hro : ∀ q ∈ fs.readOnly, ¬ [R] <+: q)
    (hread : ∀ e ∈ entries, isJpg e.1 = true → [R, e.1] ∉ fs.unreadable)
    (hopen : (entries.filter (fun e => isJpg e.1)).length ≤ fs.maxOpen) :
    ∃ w1, organize (parseFiles R (entries.map (fun e => (⟨e.1, false⟩ : FileInfo))))
        ⟨fs, []⟩ = Result.ok () w1 ∧
      ∀ e ∈ entries,
        w1.fs.stat (Join (placeOf R e.1 e.2) slash) = Sys.ok (Node.file e.2) ∧
        w1.fs.stat (R ++ slash ++ e.1) = Sys.err Errno.ENOENT := by
  obtain ⟨w1, hrun, hall⟩ := organize_flat_walk R entries fs hR hmark hnames hnodup hone
    hyear hclash hRdir hfiles hflat hro hread hopen
  refine ⟨w1, hrun, fun e he => ?_⟩
  rw [stat_resolved _ _ _ (placeOf_resolve R e.1 e.2 hR (hnames e he)),
    stat_resolved _ _ _ (resolve_two R e.1 hR (hnames e he))]
  exact hall e he

/-- Witness of C1: the directory `r` holding a.JPG (dated 2020-01-15), b.jpg
(undecodable) and c.txt ends with exactly the files 2020/1/15/a.JPG,
error_files/b.jpg and others/c.txt below it. -/
theorem organize_flat_directory_witness :
    (∃ w1, organize (parseFiles "r".toList
          (scenarioEntries.map (fun e => (⟨e.1, false⟩ : FileInfo)))) ⟨fsScenario, []⟩ =
        Result.ok () w1 ∧
      ∀ e ∈ scenarioEntries,
        w1.fs.stat (Join (placeOf "r".toList e.1 e.2) slash) = Sys.ok (Node.file e.2) ∧
        w1.fs.stat ("r".toList ++ slash ++ e.1) = Sys.err Errno.ENOENT) ∧
    scenarioEntries.map (fun e => Join (placeOf "r".toList e.1 e.2) slash) =
      ["r/2020/1/15/a.JPG".toList, "r/error_files/b.jpg".toList, "r/others/c.txt".toList] ∧
    (organize (parseFiles "r".toList
        (scenarioEntries.map (fun e => (⟨e.1, false⟩ : FileInfo))))
      ⟨fsScenario, []⟩).world.fs.nodes.filter (fun nd => decide (nd.2 ≠ Node.dir)) =
      [(["r".toList, "others".toList, "c.txt".toList], Node.file Exif.noDateTime),
        (["r".toList, "error_files".toList, "b.jpg".toList], Node.file Exif.decodeError),
        (["r".toList, "2020".toList, "1".toList, "15".toList, "a.JPG".toList],
          Node.file (Exif.dateTime 2020 1 15))] := by
  have hR : "r".toList ≠ [] ∧ '/' ∉ "r".toList := by decide
  have hmark : Contains "r".toList unknownDates = false ∧
      Contains "r".toList errorFiles = false := ⟨rfl, rfl⟩
  have hnames : ∀ e ∈ scenarioEntries, e.1 ≠ [] ∧ '/' ∉ e.1 := by decide
  have hnodup : (scenarioEntries.map Prod.fst).Nodup := by decide
  have hone : ∃ e ∈ scenarioEntries, isJpg e.1 = false :=
    ⟨("c.txt".toList, Exif.noDateTime), by decide, rfl⟩
  have hyear : ∀ e ∈ scenarioEntries, isJpg e.1 = true → yearOk e.2 = true := by decide
  have hclash : ∀ e ∈ scenarioEntries, isJpg e.1 = false →
      e.1 ∉ folderNames scenarioEntries := by decide
  have hfiles : ∀ e ∈ scenarioEntries,
      fsScenario.look ["r".toList, e.1] = some (Node.file e.2) := by decide
  have hflat : ∀ nd ∈ fsScenario.nodes, ["r".toList] <+: nd.1 →
      nd.1 = ["r".toList] ∨ nd.1 ∈ scenarioEntries.map (fun e => ["r".toList, e.1]) := by
    decide
  have hro : ∀ q ∈ fsScenario.readOnly, ¬ ["r".toList] <+: q := by decide
  have hread : ∀ e ∈ scenarioEntries, isJpg e.1 = true →
      ["r".toList, e.1] ∉ fsScenario.unreadable := by decide
  have hopen : (scenarioEntries.filter (fun e => isJpg e.1)).length ≤ fsScenario.maxOpen := by
    decide
  refine ⟨organize_flat_directory "r".toList scenarioEntries fsScenario hR hmark hnames
    hnodup hone hyear hclash rfl hfiles hflat hro hread hopen, ?_, ?_⟩
  · decide
  · decide

end PictureOrganizer
